import Mathlib

/-!
Verification of the hakkit library's specification against a shallow
embedding of its Rust source.

Bytes are modelled as `Nat` values; byte buffers as `List Nat`; wrapping
machine arithmetic is made explicit with `% 256`, `&&& 0xFF`, `% 2^32`
and so on. Fallible operations return `Except Error`, mirroring the
library's `Result<T, Error>`.

The embedding follows `src/crypto/nca.rs`, `src/utils.rs`,
`src/error.rs`, `src/formats/nca.rs`, `src/formats/pfs0.rs`,
`src/formats/hfs0.rs`, `src/formats/sarc.rs` and
`src/formats/bfttf.rs`.
-/

set_option maxRecDepth 100000

/-! ## AES core (`src/crypto/nca.rs`) -/

/-- The AES S-box table (`SBOX` in `src/crypto/nca.rs`). -/
def SBOX : List Nat := [
  0x63, 0x7C, 0x77, 0x7B, 0xF2, 0x6B, 0x6F, 0xC5, 0x30, 0x01, 0x67, 0x2B, 0xFE, 0xD7, 0xAB, 0x76,
  0xCA, 0x82, 0xC9, 0x7D, 0xFA, 0x59, 0x47, 0xF0, 0xAD, 0xD4, 0xA2, 0xAF, 0x9C, 0xA4, 0x72, 0xC0,
  0xB7, 0xFD, 0x93, 0x26, 0x36, 0x3F, 0xF7, 0xCC, 0x34, 0xA5, 0xE5, 0xF1, 0x71, 0xD8, 0x31, 0x15,
  0x04, 0xC7, 0x23, 0xC3, 0x18, 0x96, 0x05, 0x9A, 0x07, 0x12, 0x80, 0xE2, 0xEB, 0x27, 0xB2, 0x75,
  0x09, 0x83, 0x2C, 0x1A, 0x1B, 0x6E, 0x5A, 0xA0, 0x52, 0x3B, 0xD6, 0xB3, 0x29, 0xE3, 0x2F, 0x84,
  0x53, 0xD1, 0x00, 0xED, 0x20, 0xFC, 0xB1, 0x5B, 0x6A, 0xCB, 0xBE, 0x39, 0x4A, 0x4C, 0x58, 0xCF,
  0xD0, 0xEF, 0xAA, 0xFB, 0x43, 0x4D, 0x33, 0x85, 0x45, 0xF9, 0x02, 0x7F, 0x50, 0x3C, 0x9F, 0xA8,
  0x51, 0xA3, 0x40, 0x8F, 0x92, 0x9D, 0x38, 0xF5, 0xBC, 0xB6, 0xDA, 0x21, 0x10, 0xFF, 0xF3, 0xD2,
  0xCD, 0x0C, 0x13, 0xEC, 0x5F, 0x97, 0x44, 0x17, 0xC4, 0xA7, 0x7E, 0x3D, 0x64, 0x5D, 0x19, 0x73,
  0x60, 0x81, 0x4F, 0xDC, 0x22, 0x2A, 0x90, 0x88, 0x46, 0xEE, 0xB8, 0x14, 0xDE, 0x5E, 0x0B, 0xDB,
  0xE0, 0x32, 0x3A, 0x0A, 0x49, 0x06, 0x24, 0x5C, 0xC2, 0xD3, 0xAC, 0x62, 0x91, 0x95, 0xE4, 0x79,
  0xE7, 0xC8, 0x37, 0x6D, 0x8D, 0xD5, 0x4E, 0xA9, 0x6C, 0x56, 0xF4, 0xEA, 0x65, 0x7A, 0xAE, 0x08,
  0xBA, 0x78, 0x25, 0x2E, 0x1C, 0xA6, 0xB4, 0xC6, 0xE8, 0xDD, 0x74, 0x1F, 0x4B, 0xBD, 0x8B, 0x8A,
  0x70, 0x3E, 0xB5, 0x66, 0x48, 0x03, 0xF6, 0x0E, 0x61, 0x35, 0x57, 0xB9, 0x86, 0xC1, 0x1D, 0x9E,
  0xE1, 0xF8, 0x98, 0x11, 0x69, 0xD9, 0x8E, 0x94, 0x9B, 0x1E, 0x87, 0xE9, 0xCE, 0x55, 0x28, 0xDF,
  0x8C, 0xA1, 0x89, 0x0D, 0xBF, 0xE6, 0x42, 0x68, 0x41, 0x99, 0x2D, 0x0F, 0xB0, 0x54, 0xBB, 0x16]

/-- The inverse AES S-box table (`INV_SBOX` in `src/crypto/nca.rs`). -/
def INV_SBOX : List Nat := [
  0x52, 0x09, 0x6A, 0xD5, 0x30, 0x36, 0xA5, 0x38, 0xBF, 0x40, 0xA3, 0x9E, 0x81, 0xF3, 0xD7, 0xFB,
  0x7C, 0xE3, 0x39, 0x82, 0x9B, 0x2F, 0xFF, 0x87, 0x34, 0x8E, 0x43, 0x44, 0xC4, 0xDE, 0xE9, 0xCB,
  0x54, 0x7B, 0x94, 0x32, 0xA6, 0xC2, 0x23, 0x3D, 0xEE, 0x4C, 0x95, 0x0B, 0x42, 0xFA, 0xC3, 0x4E,
  0x08, 0x2E, 0xA1, 0x66, 0x28, 0xD9, 0x24, 0xB2, 0x76, 0x5B, 0xA2, 0x49, 0x6D, 0x8B, 0xD1, 0x25,
  0x72, 0xF8, 0xF6, 0x64, 0x86, 0x68, 0x98, 0x16, 0xD4, 0xA4, 0x5C, 0xCC, 0x5D, 0x65, 0xB6, 0x92,
  0x6C, 0x70, 0x48, 0x50, 0xFD, 0xED, 0xB9, 0xDA, 0x5E, 0x15, 0x46, 0x57, 0xA7, 0x8D, 0x9D, 0x84,
  0x90, 0xD8, 0xAB, 0x00, 0x8C, 0xBC, 0xD3, 0x0A, 0xF7, 0xE4, 0x58, 0x05, 0xB8, 0xB3, 0x45, 0x06,
  0xD0, 0x2C, 0x1E, 0x8F, 0xCA, 0x3F, 0x0F, 0x02, 0xC1, 0xAF, 0xBD, 0x03, 0x01, 0x13, 0x8A, 0x6B,
  0x3A, 0x91, 0x11, 0x41, 0x4F, 0x67, 0xDC, 0xEA, 0x97, 0xF2, 0xCF, 0xCE, 0xF0, 0xB4, 0xE6, 0x73,
  0x96, 0xAC, 0x74, 0x22, 0xE7, 0xAD, 0x35, 0x85, 0xE2, 0xF9, 0x37, 0xE8, 0x1C, 0x75, 0xDF, 0x6E,
  0x47, 0xF1, 0x1A, 0x71, 0x1D, 0x29, 0xC5, 0x89, 0x6F, 0xB7, 0x62, 0x0E, 0xAA, 0x18, 0xBE, 0x1B,
  0xFC, 0x56, 0x3E, 0x4B, 0xC6, 0xD2, 0x79, 0x20, 0x9A, 0xDB, 0xC0, 0xFE, 0x78, 0xCD, 0x5A, 0xF4,
  0x1F, 0xDD, 0xA8, 0x33, 0x88, 0x07, 0xC7, 0x31, 0xB1, 0x12, 0x10, 0x59, 0x27, 0x80, 0xEC, 0x5F,
  0x60, 0x51, 0x7F, 0xA9, 0x19, 0xB5, 0x4A, 0x0D, 0x2D, 0xE5, 0x7A, 0x9F, 0x93, 0xC9, 0x9C, 0xEF,
  0xA0, 0xE0, 0x3B, 0x4D, 0xAE, 0x2A, 0xF5, 0xB0, 0xC8, 0xEB, 0xBB, 0x3C, 0x83, 0x53, 0x99, 0x61,
  0x17, 0x2B, 0x04, 0x7E, 0xBA, 0x77, 0xD6, 0x26, 0xE1, 0x69, 0x14, 0x63, 0x55, 0x21, 0x0C, 0x7D]

/-- `SBOX[b]` lookup. The Rust index is a `u8`, so `b < 256` always holds
at call sites; out-of-range indices return the (unused) default `0`. -/
def sboxAt (b : Nat) : Nat := SBOX.getD b 0

/-- `INV_SBOX[b]` lookup. -/
def invSboxAt (b : Nat) : Nat := INV_SBOX.getD b 0

/-- Loop body of `gmul`: 8 iterations over the bits of `b`, accumulating
into `p`. `a <<= 1` on a Rust `u8` truncates, hence the `&&& 0xFF`. -/
def gmulGo : Nat → Nat → Nat → Nat → Nat
  | p, _, _, 0 => p
  | p, a, b, n+1 =>
    let p' := if b &&& 1 ≠ 0 then p ^^^ a else p
    let a' := if a &&& 0x80 ≠ 0 then ((a <<< 1) &&& 0xFF) ^^^ 0x1B else (a <<< 1) &&& 0xFF
    gmulGo p' a' (b >>> 1) n

/-- GF(2^8) multiplication (`gmul` in `src/crypto/nca.rs`). -/
def gmul (a b : Nat) : Nat := gmulGo 0 a b 8

/-- `sub_bytes`: apply the S-box to every state byte. -/
def sub_bytes (s : List Nat) : List Nat := s.map sboxAt

/-- `shift_rows` on the 16-byte column-major state. The permutation is
read off from the index swaps in the source; the catch-all branch is
unreachable for the `[u8; 16]` states the source operates on. -/
def shift_rows : List Nat → List Nat
  | [s0, s1, s2, s3, s4, s5, s6, s7, s8, s9, s10, s11, s12, s13, s14, s15] =>
    [s0, s5, s10, s15, s4, s9, s14, s3, s8, s13, s2, s7, s12, s1, s6, s11]
  | s => s

/-- `inv_shift_rows`. -/
def inv_shift_rows : List Nat → List Nat
  | [s0, s1, s2, s3, s4, s5, s6, s7, s8, s9, s10, s11, s12, s13, s14, s15] =>
    [s0, s13, s10, s7, s4, s1, s14, s11, s8, s5, s2, s15, s12, s9, s6, s3]
  | s => s

/-- One column of `mix_columns` (the loop body in the source). -/
def mixColumn (s0 s1 s2 s3 : Nat) : List Nat :=
  [gmul 0x02 s0 ^^^ gmul 0x03 s1 ^^^ s2 ^^^ s3,
   s0 ^^^ gmul 0x02 s1 ^^^ gmul 0x03 s2 ^^^ s3,
   s0 ^^^ s1 ^^^ gmul 0x02 s2 ^^^ gmul 0x03 s3,
   gmul 0x03 s0 ^^^ s1 ^^^ s2 ^^^ gmul 0x02 s3]

/-- `mix_columns` applied to all four columns of the state. -/
def mix_columns : List Nat → List Nat
  | [s0, s1, s2, s3, s4, s5, s6, s7, s8, s9, s10, s11, s12, s13, s14, s15] =>
    mixColumn s0 s1 s2 s3 ++ mixColumn s4 s5 s6 s7 ++
      mixColumn s8 s9 s10 s11 ++ mixColumn s12 s13 s14 s15
  | s => s

/-- One column of `inv_mix_columns`. -/
def invMixColumn (s0 s1 s2 s3 : Nat) : List Nat :=
  [gmul 0x0E s0 ^^^ gmul 0x0B s1 ^^^ gmul 0x0D s2 ^^^ gmul 0x09 s3,
   gmul 0x09 s0 ^^^ gmul 0x0E s1 ^^^ gmul 0x0B s2 ^^^ gmul 0x0D s3,
   gmul 0x0D s0 ^^^ gmul 0x09 s1 ^^^ gmul 0x0E s2 ^^^ gmul 0x0B s3,
   gmul 0x0B s0 ^^^ gmul 0x0D s1 ^^^ gmul 0x09 s2 ^^^ gmul 0x0E s3]

/-- `inv_mix_columns`. -/
def inv_mix_columns : List Nat → List Nat
  | [s0, s1, s2, s3, s4, s5, s6, s7, s8, s9, s10, s11, s12, s13, s14, s15] =>
    invMixColumn s0 s1 s2 s3 ++ invMixColumn s4 s5 s6 s7 ++
      invMixColumn s8 s9 s10 s11 ++ invMixColumn s12 s13 s14 s15
  | s => s

/-- `add_round_key`: XOR the state with (a 16-byte slice of) the round
keys. The source zips the 16-byte state with the key slice. -/
def add_round_key (s rk : List Nat) : List Nat :=
  List.zipWith (fun b k => b ^^^ k) s rk

/-- The `RCON` table from `key_expand`. -/
def rconList : List Nat := [0x01, 0x02, 0x04, 0x08, 0x10, 0x20, 0x40, 0x80, 0x1B, 0x36]

/-- One iteration of the key-schedule loop: from the flat byte list `w`
(whose length is `4·i` for the current word index `i`), produce the next
4-byte word `W[i] = W[i-4] XOR t`. -/
def nextWord (w : List Nat) : List Nat :=
  let i := w.length / 4
  let t0 := (w.drop ((i - 1) * 4)).take 4
  let t := if i % 4 = 0 then
      [sboxAt (t0.getD 1 0) ^^^ rconList.getD (i / 4 - 1) 0,
       sboxAt (t0.getD 2 0), sboxAt (t0.getD 3 0), sboxAt (t0.getD 0 0)]
    else t0
  List.zipWith (fun x y => x ^^^ y) ((w.drop ((i - 4) * 4)).take 4) t

/-- Iterate `nextWord` `n` times (the `for i in 4..44` loop). -/
def keyExpandGo : Nat → List Nat → List Nat
  | 0, w => w
  | n+1, w => keyExpandGo n (w ++ nextWord w)

/-- `key_expand`: expand a 16-byte key into 176 bytes of round keys. -/
def key_expand (key : List Nat) : List Nat := keyExpandGo 40 (key.take 16)

/-- `aes128_encrypt_block`: initial AddRoundKey, nine full rounds, final
round without MixColumns. -/
def aes128_encrypt_block (block rks : List Nat) : List Nat :=
  let s0 := add_round_key block (rks.take 16)
  let s9 := (List.range' 1 9).foldl
    (fun s round =>
      add_round_key (mix_columns (shift_rows (sub_bytes s))) ((rks.drop (round * 16)).take 16))
    s0
  add_round_key (shift_rows (sub_bytes s9)) (rks.drop 160)

/-- `inv_sub_bytes`: apply the inverse S-box to every state byte. -/
def inv_sub_bytes (s : List Nat) : List Nat := s.map invSboxAt

/-- `aes128_decrypt_block`: the inverse cipher, rounds in reverse order. -/
def aes128_decrypt_block (block rks : List Nat) : List Nat :=
  let s10 := add_round_key block (rks.drop 160)
  let s1 := ((List.range' 1 9).reverse).foldl
    (fun s round =>
      inv_mix_columns (add_round_key (inv_sub_bytes (inv_shift_rows s)) ((rks.drop (round * 16)).take 16)))
    s10
  add_round_key (inv_sub_bytes (inv_shift_rows s1)) (rks.take 16)

/-! ## XTS mode and NCA header decryption (`src/crypto/nca.rs`) -/

/-- `make_xts_tweak`: 8 zero bytes followed by the big-endian sector
index (Nintendo's non-standard encoding). `sector` is a `u64`. -/
def make_xts_tweak (sector : Nat) : List Nat :=
  List.replicate 8 0 ++
    [(sector >>> 56) &&& 0xFF, (sector >>> 48) &&& 0xFF, (sector >>> 40) &&& 0xFF,
     (sector >>> 32) &&& 0xFF, (sector >>> 24) &&& 0xFF, (sector >>> 16) &&& 0xFF,
     (sector >>> 8) &&& 0xFF, sector &&& 0xFF]

/-- `xts_mult_tweak`: multiply the 128-bit tweak by x in GF(2^128).
The Rust loop updates `t[15]` down to `t[1]` as
`t[i] = (t[i] << 1) | (t[i-1] >> 7)` (each `<< 1` truncating to `u8`),
reading the not-yet-updated `t[i-1]`, then shifts `t[0]` and conditionally
XORs `0x87`. -/
def xts_mult_tweak : List Nat → List Nat
  | [t0, t1, t2, t3, t4, t5, t6, t7, t8, t9, t10, t11, t12, t13, t14, t15] =>
    let b0 := if t15 >>> 7 ≠ 0 then ((t0 <<< 1) &&& 0xFF) ^^^ 0x87 else (t0 <<< 1) &&& 0xFF
    [b0,
     ((t1 <<< 1) &&& 0xFF) ||| (t0 >>> 7), ((t2 <<< 1) &&& 0xFF) ||| (t1 >>> 7),
     ((t3 <<< 1) &&& 0xFF) ||| (t2 >>> 7), ((t4 <<< 1) &&& 0xFF) ||| (t3 >>> 7),
     ((t5 <<< 1) &&& 0xFF) ||| (t4 >>> 7), ((t6 <<< 1) &&& 0xFF) ||| (t5 >>> 7),
     ((t7 <<< 1) &&& 0xFF) ||| (t6 >>> 7), ((t8 <<< 1) &&& 0xFF) ||| (t7 >>> 7),
     ((t9 <<< 1) &&& 0xFF) ||| (t8 >>> 7), ((t10 <<< 1) &&& 0xFF) ||| (t9 >>> 7),
     ((t11 <<< 1) &&& 0xFF) ||| (t10 >>> 7), ((t12 <<< 1) &&& 0xFF) ||| (t11 >>> 7),
     ((t13 <<< 1) &&& 0xFF) ||| (t12 >>> 7), ((t14 <<< 1) &&& 0xFF) ||| (t13 >>> 7),
     ((t15 <<< 1) &&& 0xFF) ||| (t14 >>> 7)]
  | t => t

/-- The per-block loop of `xts_decrypt_sector`: `n` 16-byte sub-blocks,
each XOR-whitened with the tweak `t`, AES-decrypted, XOR-whitened again;
the tweak advances by `xts_mult_tweak` between blocks. -/
def xtsSectorGo (rk1 : List Nat) : Nat → List Nat → List Nat → List Nat
  | 0, _, _ => []
  | n+1, t, rest =>
    let block := rest.take 16
    let dec := List.zipWith (fun x y => x ^^^ y)
      (aes128_decrypt_block (List.zipWith (fun x y => x ^^^ y) block t) rk1) t
    dec ++ xtsSectorGo rk1 n (xts_mult_tweak t) (rest.drop 16)

/-- `xts_decrypt_sector`: decrypt one 0x200-byte sector (32 sub-blocks)
with cipher key `k1`, tweak key `k2` and the given sector index. -/
def xts_decrypt_sector (data k1 k2 : List Nat) (sector : Nat) : List Nat :=
  xtsSectorGo (key_expand k1) 32
    (aes128_encrypt_block (make_xts_tweak sector) (key_expand k2)) data

/-- The bytes of the magic string `"NCA2"`. -/
def nca2Magic : List Nat := [0x4E, 0x43, 0x41, 0x32]

/-- `decrypt_header`: split the 32-byte header key into cipher/tweak
halves, decrypt the two header sectors with indices 0 and 1, test the
magic the source reads from `out[0x200..0x204]` (the first 4 bytes of
the decrypted second sector), then decrypt the four FS-header sectors
with index 0 (NCA2) or indices 2..5. -/
def decrypt_header (encrypted header_key : List Nat) : List Nat :=
  let k1 := header_key.take 16
  let k2 := header_key.drop 16
  let sec0 := xts_decrypt_sector (encrypted.take 0x200) k1 k2 0
  let sec1 := xts_decrypt_sector ((encrypted.drop 0x200).take 0x200) k1 k2 1
  let fsSec := fun fs => xts_decrypt_sector ((encrypted.drop (0x400 + fs * 0x200)).take 0x200)
    k1 k2 (if sec1.take 4 = nca2Magic then 0 else fs + 2)
  sec0 ++ sec1 ++ fsSec 0 ++ fsSec 1 ++ fsSec 2 ++ fsSec 3

/-! ## CTR mode and ECB (`src/crypto/nca.rs`) -/

/-- The counter-increment loop of `decrypt_section_ctr`: increment the
16-byte counter as a big-endian integer with per-byte wrapping, stopping
when a byte does not wrap to zero. Returns the new list and whether the
carry propagated past the processed bytes. -/
def incBE : List Nat → List Nat × Bool
  | [] => ([], true)
  | b :: rest =>
    let r := incBE rest
    if r.2 then (((b + 1) % 256) :: r.1, (b + 1) % 256 = 0) else (b :: r.1, false)

/-- The 128-bit big-endian counter increment used by `decrypt_section_ctr`. -/
def ctr_increment (c : List Nat) : List Nat := (incBE c).1

/-- The byte loop of `decrypt_section_ctr`: when `ks_pos` reaches 16, a
fresh keystream block is produced by encrypting the counter, which is
then incremented. -/
def ctrGo (rk : List Nat) : List Nat → List Nat → List Nat → Nat → List Nat
  | [], _, _, _ => []
  | b :: rest, ctr, ks, kspos =>
    if kspos = 16 then
      let ksNew := aes128_encrypt_block ctr rk
      (b ^^^ ksNew.getD 0 0) :: ctrGo rk rest (ctr_increment ctr) ksNew 1
    else
      (b ^^^ ks.getD kspos 0) :: ctrGo rk rest ctr ks (kspos + 1)

/-- `decrypt_section_ctr`: AES-128-CTR applied to `data` (the source
rewrites in place; here the result is returned). The keystream buffer
starts as 16 zeros with `ks_pos = 16`, forcing generation on byte 0. -/
def decrypt_section_ctr (data key counter : List Nat) : List Nat :=
  ctrGo (key_expand key) data counter (List.replicate 16 0) 16

/-- `decrypt_block_ecb`: decrypt a single 16-byte block. -/
def decrypt_block_ecb (block key : List Nat) : List Nat :=
  aes128_decrypt_block block (key_expand key)

/-! ## Error type (`src/error.rs`) and IO model -/

/-- The kind of an underlying `std::io::Error`. For the in-memory and
file byte sources the library reads from, a failed `read_exact` has kind
`UnexpectedEof`; `other` stands for every remaining kind. -/
inductive IoErrorKind where
  | unexpectedEof
  | other
deriving DecidableEq, Repr

/-- The library error enum (`Error` in `src/error.rs`). `Io` wraps the
underlying I/O error, modelled by its kind. -/
inductive Error where
  | badMagic
  | unsupportedVersion (v : Nat)
  | unexpectedEof
  | unterminatedName
  | invalidRange
  | parse (msg : String)
  | ioError (e : IoErrorKind)
  | lz4
  | zstd
deriving DecidableEq, Repr

/-- Model of `std::io::Read::read_exact` on a byte stream positioned at
the head of `s`: if `n` bytes are available they are consumed and
returned, otherwise the call fails with an `io::Error` of kind
`UnexpectedEof` (per the documented contract of `read_exact`). Returns
the bytes read and the remaining stream. -/
def ioReadExact (s : List Nat) (n : Nat) : Except IoErrorKind (List Nat × List Nat) :=
  if n ≤ s.length then .ok (s.take n, s.drop n) else .error .unexpectedEof

/-! ## Typed stream reader (`src/utils.rs`)

Each operation takes the remaining stream and returns the parsed value
together with the stream that remains after it, or an `Error`. The `?`
operator converting `io::Error` into `Error` via the `From` impl in
`src/error.rs` is modelled by wrapping in `Error.ioError`. -/

/-- `u64::from_le_bytes` and friends: little-endian byte-list value. -/
def leVal (l : List Nat) : Nat := l.foldr (fun b acc => b + 256 * acc) 0

/-- `u32::from_be_bytes` and friends: big-endian byte-list value. -/
def beVal (l : List Nat) : Nat := l.foldl (fun acc b => acc * 256 + b) 0

namespace utils

/-- `utils::u8`: read one byte. -/
def u8 (s : List Nat) : Except Error (Nat × List Nat) :=
  match ioReadExact s 1 with
  | .ok (b, rest) => .ok (b.getD 0 0, rest)
  | .error e => .error (.ioError e)

/-- `utils::le_u16`. -/
def le_u16 (s : List Nat) : Except Error (Nat × List Nat) :=
  match ioReadExact s 2 with
  | .ok (b, rest) => .ok (leVal b, rest)
  | .error e => .error (.ioError e)

/-- `utils::le_u32`. -/
def le_u32 (s : List Nat) : Except Error (Nat × List Nat) :=
  match ioReadExact s 4 with
  | .ok (b, rest) => .ok (leVal b, rest)
  | .error e => .error (.ioError e)

/-- `utils::le_u64`. -/
def le_u64 (s : List Nat) : Except Error (Nat × List Nat) :=
  match ioReadExact s 8 with
  | .ok (b, rest) => .ok (leVal b, rest)
  | .error e => .error (.ioError e)

/-- `utils::be_u16`. -/
def be_u16 (s : List Nat) : Except Error (Nat × List Nat) :=
  match ioReadExact s 2 with
  | .ok (b, rest) => .ok (beVal b, rest)
  | .error e => .error (.ioError e)

/-- `utils::be_u32`. -/
def be_u32 (s : List Nat) : Except Error (Nat × List Nat) :=
  match ioReadExact s 4 with
  | .ok (b, rest) => .ok (beVal b, rest)
  | .error e => .error (.ioError e)

/-- `utils::bytesa::<N>`: read exactly `n` bytes into an array. -/
def bytesa (n : Nat) (s : List Nat) : Except Error (List Nat × List Nat) :=
  match ioReadExact s n with
  | .ok (b, rest) => .ok (b, rest)
  | .error e => .error (.ioError e)

/-- `utils::bytesv`: read exactly `len` bytes into a `Vec`. -/
def bytesv (len : Nat) (s : List Nat) : Except Error (List Nat × List Nat) :=
  match ioReadExact s len with
  | .ok (b, rest) => .ok (b, rest)
  | .error e => .error (.ioError e)

/-- `utils::magic`: read `expected.length` bytes and compare. -/
def magic (expected : List Nat) (s : List Nat) : Except Error (Unit × List Nat) :=
  match bytesa expected.length s with
  | .ok (got, rest) => if got = expected then .ok ((), rest) else .error .badMagic
  | .error e => .error e

end utils

/-! ## NCA descriptor and parser (`src/formats/nca.rs`) -/

/-- `DistributionType`. -/
inductive DistributionType where
  | download
  | gameCard
  | unknown (v : Nat)
deriving DecidableEq, Repr

/-- `From<u8> for DistributionType`. -/
def DistributionType.fromByte (v : Nat) : DistributionType :=
  match v with
  | 0 => .download
  | 1 => .gameCard
  | x => .unknown x

/-- `ContentType`. -/
inductive ContentType where
  | program
  | meta
  | control
  | manual
  | data
  | publicData
  | unknown (v : Nat)
deriving DecidableEq, Repr

/-- `From<u8> for ContentType`. -/
def ContentType.fromByte (v : Nat) : ContentType :=
  match v with
  | 0 => .program
  | 1 => .meta
  | 2 => .control
  | 3 => .manual
  | 4 => .data
  | 5 => .publicData
  | x => .unknown x

/-- `FsEntry`: a filesystem section entry in 0x200-byte media blocks. -/
structure FsEntry where
  start_block : Nat
  end_block : Nat
deriving DecidableEq, Repr

/-- The parsed NCA header (`Nca` in `src/formats/nca.rs`). The four
fixed-size arrays are modelled as lists of length 4. -/
structure Nca where
  version : Nat
  distribution_type : DistributionType
  content_type : ContentType
  key_generation : Nat
  key_area_enc_key_index : Nat
  content_size : Nat
  program_id : Nat
  content_index : Nat
  sdk_addon_version : Nat
  rights_id : List Nat
  fs_entries : List FsEntry
  fs_header_hashes : List (List Nat)
  encrypted_key_area : List (List Nat)
deriving DecidableEq, Repr

/-- One 0x10-byte FS-entry read (loop body over `fs_entries`). -/
def parseFsEntry (s : List Nat) : Except Error (FsEntry × List Nat) := do
  let (start_block, s) ← utils.le_u32 s
  let (end_block, s) ← utils.le_u32 s
  let (_reserved, s) ← utils.le_u64 s
  .ok (⟨start_block, end_block⟩, s)

/-- `Nca::parse` over an already-decrypted byte stream: skip the two
RSA signatures, read the magic (`NCA0`..`NCA3`, otherwise `BadMagic`),
read the scalar fields, the four FS entries, hashes and key-area
entries, and reject `version > 3` with `UnsupportedVersion`. -/
def Nca.parse (s0 : List Nat) : Except Error Nca := do
  let s := s0.drop 0x200
  let (magic4, s) ← utils.bytesa 4 s
  let version ←
    if magic4 = [0x4E, 0x43, 0x41, 0x33] then Except.ok 3
    else if magic4 = [0x4E, 0x43, 0x41, 0x32] then Except.ok 2
    else if magic4 = [0x4E, 0x43, 0x41, 0x31] then Except.ok 1
    else if magic4 = [0x4E, 0x43, 0x41, 0x30] then Except.ok 0
    else Except.error Error.badMagic
  let (dist, s) ← utils.u8 s
  let (ctype, s) ← utils.u8 s
  let (key_gen_old, s) ← utils.u8 s
  let (key_area_enc_key_index, s) ← utils.u8 s
  let (content_size, s) ← utils.le_u64 s
  let (program_id, s) ← utils.le_u64 s
  let (content_index, s) ← utils.le_u32 s
  let (sdk_addon_version, s) ← utils.le_u32 s
  let (key_gen_new, s) ← utils.u8 s
  let (_sig_key_gen, s) ← utils.u8 s
  let (_reserved, s) ← utils.bytesa 0xE s
  let (rights_id, s) ← utils.bytesa 0x10 s
  let (e0, s) ← parseFsEntry s
  let (e1, s) ← parseFsEntry s
  let (e2, s) ← parseFsEntry s
  let (e3, s) ← parseFsEntry s
  let (h0, s) ← utils.bytesa 0x20 s
  let (h1, s) ← utils.bytesa 0x20 s
  let (h2, s) ← utils.bytesa 0x20 s
  let (h3, s) ← utils.bytesa 0x20 s
  let (k0, s) ← utils.bytesa 0x10 s
  let (k1, s) ← utils.bytesa 0x10 s
  let (k2, s) ← utils.bytesa 0x10 s
  let (k3, _s) ← utils.bytesa 0x10 s
  if version > 3 then
    Except.error (Error.unsupportedVersion version)
  else
    Except.ok
      { version := version
        distribution_type := DistributionType.fromByte dist
        content_type := ContentType.fromByte ctype
        key_generation := key_gen_old.max key_gen_new
        key_area_enc_key_index := key_area_enc_key_index
        content_size := content_size
        program_id := program_id
        content_index := content_index
        sdk_addon_version := sdk_addon_version
        rights_id := rights_id
        fs_entries := [e0, e1, e2, e3]
        fs_header_hashes := [h0, h1, h2, h3]
        encrypted_key_area := [k0, k1, k2, k3] }

/-- `Nca::section_offset`: `fs_entries.get(section)?`, then `None` for a
zero-zero entry, else the byte offset `start_block * 0x200`. -/
def Nca.section_offset (nca : Nca) (sec : Nat) : Option Nat :=
  match nca.fs_entries[sec]? with
  | none => none
  | some e =>
    if e.start_block = 0 ∧ e.end_block = 0 then none
    else some (e.start_block * 0x200)

/-! ## PFS0 (`src/formats/pfs0.rs`) -/

/-- `Pfs0File`: one file entry of a PFS0 descriptor. -/
structure Pfs0File where
  name : String
  offset : Nat
  size : Nat
deriving DecidableEq, Repr

/-- `Pfs0`: parsed descriptor with the absolute data-section offset. -/
structure Pfs0 where
  files : List Pfs0File
  data_offset : Nat
deriving DecidableEq, Repr

/-- `Pfs0Reader`: the underlying seekable byte source together with the
parsed descriptor. The source bytes are the whole stream from its
origin, so absolute seeks index directly into `inner`. -/
structure Pfs0Reader where
  inner : List Nat
  pfs0 : Pfs0
deriving DecidableEq, Repr

/-- `Pfs0Reader::read_file`: seek to `data_offset + file.offset` and
return a `Take` limited to `file.size` bytes. The returned view is
modelled by the complete byte sequence that can be read through it. -/
def Pfs0Reader.read_file (r : Pfs0Reader) (f : Pfs0File) : List Nat :=
  (r.inner.drop (r.pfs0.data_offset + f.offset)).take f.size

/-! ## HFS0 (`src/formats/hfs0.rs`) -/

/-- `Hfs0File`: one file entry of an HFS0 descriptor. -/
structure Hfs0File where
  name : String
  offset : Nat
  size : Nat
  hashed_region_size : Nat
  sha256 : List Nat
deriving DecidableEq, Repr

/-- `Hfs0`: parsed descriptor with the absolute data-section offset. -/
structure Hfs0 where
  files : List Hfs0File
  data_offset : Nat
deriving DecidableEq, Repr

/-- `Hfs0Reader`. -/
structure Hfs0Reader where
  inner : List Nat
  hfs0 : Hfs0
deriving DecidableEq, Repr

/-- `Hfs0Reader::read_file`: seek to `data_offset + file.offset` and
return a `Take` limited to `file.size` bytes. -/
def Hfs0Reader.read_file (r : Hfs0Reader) (f : Hfs0File) : List Nat :=
  (r.inner.drop (r.hfs0.data_offset + f.offset)).take f.size

/-! ## SARC (`src/formats/sarc.rs`) -/

/-- `SarcFile`: one FAT entry of a SARC descriptor. -/
structure SarcFile where
  name : Option String
  hash : Nat
  data_start : Nat
  data_end : Nat
deriving DecidableEq, Repr

/-- `SarcFile::size`: `data_end.saturating_sub(data_start)`. Saturating
`u32` subtraction coincides with truncated `Nat` subtraction. -/
def SarcFile.size (f : SarcFile) : Nat := f.data_end - f.data_start

/-- `Sarc`: parsed descriptor. -/
structure Sarc where
  files : List SarcFile
  le : Bool
  version : Nat
  hash_multiplier : Nat
  data_offset : Nat
deriving DecidableEq, Repr

/-- `SarcReader`. -/
structure SarcReader where
  inner : List Nat
  sarc : Sarc
deriving DecidableEq, Repr

/-- `SarcReader::read_file`: seek to `data_offset + file.data_start` and
return a `Take` limited to `file.size()` bytes. -/
def SarcReader.read_file (r : SarcReader) (f : SarcFile) : List Nat :=
  (r.inner.drop (r.sarc.data_offset + f.data_start)).take f.size

/-- `b as i8 as u32` for a byte `b < 256`: bytes `>= 0x80` are
sign-extended into the high 24 bits. -/
def sign_ext_u32 (b : Nat) : Nat := if b < 0x80 then b else 0xFFFFFF00 + b

/-- `sarc_hash`: `h = h.wrapping_mul(multiplier).wrapping_add(b as i8 as u32)`
over the name bytes, i.e. a multiply modulo 2^32 followed by an add
modulo 2^32. -/
def sarc_hash (name : List Nat) (multiplier : Nat) : Nat :=
  name.foldl (fun h b => (h * multiplier % 0x100000000 + sign_ext_u32 b) % 0x100000000) 0

/-- The hash recurrence exactly as the specification words it:
`h := (h * multiplier) + sign_extend_i8(b)`, all mod 2^32 (a single
reduction per step). Stated separately so that agreement with the
source's two-reduction form is a theorem. -/
def sarcHashSpec (name : List Nat) (multiplier : Nat) : Nat :=
  name.foldl (fun h b => (h * multiplier + sign_ext_u32 b) % 0x100000000) 0

/-! ## BFTTF / BFOTF (`src/formats/bfttf.rs`) -/

/-- `FontPlatform`. -/
inductive FontPlatform where
  | wiiU
  | switch
  | windows
deriving DecidableEq, Repr

/-- `FontPlatform::xor_key`: the platform's 16-byte XOR key. -/
def FontPlatform.xor_key : FontPlatform → List Nat
  | .wiiU =>
    [0x2A, 0xCE, 0xF5, 0x16, 0x10, 0x0D, 0xC4, 0xC3, 0x28, 0x78, 0x27, 0x42, 0xA5, 0x5B, 0xF4, 0xAB]
  | .switch =>
    [0x15, 0x9A, 0x7D, 0x6F, 0x16, 0x6F, 0xD0, 0x0C, 0x67, 0xE7, 0x39, 0x98, 0x0B, 0xEB, 0xF6, 0x62]
  | .windows =>
    [0x97, 0x3B, 0x5C, 0x6C, 0x26, 0xF3, 0xFA, 0xB5, 0xA2, 0xD5, 0x8E, 0xB5, 0x5A, 0x4D, 0xD5, 0x51]

/-- The `iter().enumerate().map(|(i, b)| b ^ key[i % 16])` loop of
`xor_with_key`, with the running byte index made explicit. -/
def xorWithKeyGo (key : List Nat) : Nat → List Nat → List Nat
  | _, [] => []
  | i, b :: rest => (b ^^^ key.getD (i % 16) 0) :: xorWithKeyGo key (i + 1) rest

/-- `xor_with_key`: XOR the data with the repeating 16-byte key. -/
def xor_with_key (data key : List Nat) : List Nat := xorWithKeyGo key 0 data

namespace bfttf

/-- `bfttf::decrypt`. -/
def decrypt (data : List Nat) (platform : FontPlatform) : List Nat :=
  xor_with_key data platform.xor_key

/-- `bfttf::encrypt`. -/
def encrypt (data : List Nat) (platform : FontPlatform) : List Nat :=
  xor_with_key data platform.xor_key

end bfttf

/-! ## Basic lemmas and claim theorems -/

/-- All bytes of a buffer are in range. -/
def Bytes (l : List Nat) : Prop := ∀ b ∈ l, b < 256

instance : DecidablePred Bytes := fun l => List.decidableBAll _ l

theorem xorWithKeyGo_involutive (key : List Nat) :
    ∀ (d : List Nat) (i : Nat), xorWithKeyGo key i (xorWithKeyGo key i d) = d := by
  intro d
  induction d with
  | nil => intro i; rfl
  | cons b rest ih =>
    intro i
    simp only [xorWithKeyGo, Nat.xor_cancel_right, ih]

/-- C5: `sarc_hash` computes the fold `h := (h·multiplier) +
sign_extend_i8(b) (mod 2^32)` over the name bytes, and on the concrete
inputs of the specification: the empty string hashes to 0, `"a"` hashes
to 97, and the single byte `0xFF` hashes to `0xFFFFFFFF` (sign
extension). -/
theorem sarc_hash_spec_and_values (name : List Nat) (multiplier : Nat) :
    sarc_hash name multiplier = sarcHashSpec name multiplier ∧
    sarc_hash [] 101 = 0 ∧
    sarc_hash [0x61] 101 = 97 ∧
    sarc_hash [0xFF] 101 = 0xFFFFFFFF := by
  refine ⟨?_, by decide, by decide, by decide⟩
  unfold sarc_hash sarcHashSpec
  congr 1
  funext h b
  rw [Nat.mod_add_mod]

/-- C7: the streaming views returned by the three archive readers'
`read_file` yield at most the entry's declared size in bytes. -/
theorem read_file_bounded :
    (∀ (r : Pfs0Reader) (f : Pfs0File), (r.read_file f).length ≤ f.size) ∧
    (∀ (r : Hfs0Reader) (f : Hfs0File), (r.read_file f).length ≤ f.size) ∧
    (∀ (r : SarcReader) (f : SarcFile), (r.read_file f).length ≤ f.size) := by
  refine ⟨fun r f => ?_, fun r f => ?_, fun r f => ?_⟩
  · simp only [Pfs0Reader.read_file, List.length_take]
    exact inf_le_left
  · simp only [Hfs0Reader.read_file, List.length_take]
    exact inf_le_left
  · simp only [SarcReader.read_file, List.length_take]
    exact inf_le_left

/-- C8: XORing twice with the repeating 16-byte key is the identity, the
BFTTF encrypt and decrypt functions are the same operation, and
`encrypt (decrypt x) = x` for every input and platform. -/
theorem xor_with_key_involutive :
    (∀ (d k : List Nat), xor_with_key (xor_with_key d k) k = d) ∧
    (∀ (x : List Nat) (p : FontPlatform), bfttf.encrypt x p = bfttf.decrypt x p) ∧
    (∀ (x : List Nat) (p : FontPlatform), bfttf.encrypt (bfttf.decrypt x p) p = x) := by
  refine ⟨fun d k => xorWithKeyGo_involutive k d 0, fun x p => rfl,
    fun x p => xorWithKeyGo_involutive _ x 0⟩

/-- C9: `SarcFile::size` is `data_end - data_start` when
`data_end ≥ data_start` and `0` otherwise; being a total function on
`Nat`, it neither underflows nor panics. -/
theorem sarcFile_size_saturating (f : SarcFile) :
    f.size = if f.data_start ≤ f.data_end then f.data_end - f.data_start else 0 := by
  unfold SarcFile.size
  split <;> omega

/-- C3 (counterexample): reading one byte from an empty stream fails,
but with the `Io` variant wrapping an I/O error of kind `UnexpectedEof`,
not with the `Error::UnexpectedEof` variant the claim names. -/
theorem u8_empty_fails_with_io_variant :
    utils.u8 [] = .error (.ioError .unexpectedEof) ∧
    (Except.error (Error.ioError .unexpectedEof) : Except Error (Nat × List Nat)) ≠
      .error .unexpectedEof := by
  exact ⟨rfl, by intro h; simp at h⟩

/-- C3 (amended): every typed stream-reader operation either consumes
exactly its promised number of bytes and succeeds, or fails with the
`Io` error variant wrapping an I/O error of kind `UnexpectedEof`
(`magic` may additionally fail with `BadMagic` after a complete read);
no operation returns partially-read data. -/
theorem reader_ops_exact_or_eof (s : List Nat) (n : Nat) (expected : List Nat) :
    (1 ≤ s.length ∧ utils.u8 s = .ok ((s.take 1).getD 0 0, s.drop 1) ∨
      s.length < 1 ∧ utils.u8 s = .error (.ioError .unexpectedEof)) ∧
    (2 ≤ s.length ∧ utils.le_u16 s = .ok (leVal (s.take 2), s.drop 2) ∨
      s.length < 2 ∧ utils.le_u16 s = .error (.ioError .unexpectedEof)) ∧
    (4 ≤ s.length ∧ utils.le_u32 s = .ok (leVal (s.take 4), s.drop 4) ∨
      s.length < 4 ∧ utils.le_u32 s = .error (.ioError .unexpectedEof)) ∧
    (8 ≤ s.length ∧ utils.le_u64 s = .ok (leVal (s.take 8), s.drop 8) ∨
      s.length < 8 ∧ utils.le_u64 s = .error (.ioError .unexpectedEof)) ∧
    (2 ≤ s.length ∧ utils.be_u16 s = .ok (beVal (s.take 2), s.drop 2) ∨
      s.length < 2 ∧ utils.be_u16 s = .error (.ioError .unexpectedEof)) ∧
    (4 ≤ s.length ∧ utils.be_u32 s = .ok (beVal (s.take 4), s.drop 4) ∨
      s.length < 4 ∧ utils.be_u32 s = .error (.ioError .unexpectedEof)) ∧
    (n ≤ s.length ∧ utils.bytesa n s = .ok (s.take n, s.drop n) ∧ (s.take n).length = n ∨
      s.length < n ∧ utils.bytesa n s = .error (.ioError .unexpectedEof)) ∧
    (n ≤ s.length ∧ utils.bytesv n s = .ok (s.take n, s.drop n) ∧ (s.take n).length = n ∨
      s.length < n ∧ utils.bytesv n s = .error (.ioError .unexpectedEof)) ∧
    (expected.length ≤ s.length ∧
        (s.take expected.length = expected ∧
            utils.magic expected s = .ok ((), s.drop expected.length) ∨
          s.take expected.length ≠ expected ∧ utils.magic expected s = .error .badMagic) ∨
      s.length < expected.length ∧ utils.magic expected s = .error (.ioError .unexpectedEof)) := by
  refine ⟨?_, ?_, ?_, ?_, ?_, ?_, ?_, ?_, ?_⟩
  · by_cases h : 1 ≤ s.length
    · exact Or.inl ⟨h, by simp [utils.u8, ioReadExact, h]⟩
    · exact Or.inr ⟨by omega, by simp [utils.u8, ioReadExact, h]⟩
  · by_cases h : 2 ≤ s.length
    · exact Or.inl ⟨h, by simp [utils.le_u16, ioReadExact, h]⟩
    · exact Or.inr ⟨by omega, by simp [utils.le_u16, ioReadExact, h]⟩
  · by_cases h : 4 ≤ s.length
    · exact Or.inl ⟨h, by simp [utils.le_u32, ioReadExact, h]⟩
    · exact Or.inr ⟨by omega, by simp [utils.le_u32, ioReadExact, h]⟩
  · by_cases h : 8 ≤ s.length
    · exact Or.inl ⟨h, by simp [utils.le_u64, ioReadExact, h]⟩
    · exact Or.inr ⟨by omega, by simp [utils.le_u64, ioReadExact, h]⟩
  · by_cases h : 2 ≤ s.length
    · exact Or.inl ⟨h, by simp [utils.be_u16, ioReadExact, h]⟩
    · exact Or.inr ⟨by omega, by simp [utils.be_u16, ioReadExact, h]⟩
  · by_cases h : 4 ≤ s.length
    · exact Or.inl ⟨h, by simp [utils.be_u32, ioReadExact, h]⟩
    · exact Or.inr ⟨by omega, by simp [utils.be_u32, ioReadExact, h]⟩
  · by_cases h : n ≤ s.length
    · exact Or.inl ⟨h, by simp [utils.bytesa, ioReadExact, h], by simp [List.length_take]; omega⟩
    · exact Or.inr ⟨by omega, by simp [utils.bytesa, ioReadExact, h]⟩
  · by_cases h : n ≤ s.length
    · exact Or.inl ⟨h, by simp [utils.bytesv, ioReadExact, h], by simp [List.length_take]; omega⟩
    · exact Or.inr ⟨by omega, by simp [utils.bytesv, ioReadExact, h]⟩
  · by_cases h : expected.length ≤ s.length
    · refine Or.inl ⟨h, ?_⟩
      by_cases hm : s.take expected.length = expected
      · exact Or.inl ⟨hm, by simp [utils.magic, utils.bytesa, ioReadExact, h, hm]⟩
      · exact Or.inr ⟨hm, by simp [utils.magic, utils.bytesa, ioReadExact, h, hm]⟩
    · exact Or.inr ⟨by omega, by simp [utils.magic, utils.bytesa, ioReadExact, h]⟩

/-- C6: for a parsed NCA descriptor (four FS entries) and a section
index `i < 4`, `section_offset` returns `none` exactly when both
media-block fields of entry `i` are zero, and otherwise returns the byte
offset `start_block * 0x200`. -/
theorem section_offset_spec (nca : Nca) (i : Nat)
    (hlen : nca.fs_entries.length = 4) (hi : i < 4) :
    (nca.section_offset i = none ↔
      ((nca.fs_entries.getD i ⟨0, 0⟩).start_block = 0 ∧
        (nca.fs_entries.getD i ⟨0, 0⟩).end_block = 0)) ∧
    (¬((nca.fs_entries.getD i ⟨0, 0⟩).start_block = 0 ∧
        (nca.fs_entries.getD i ⟨0, 0⟩).end_block = 0) →
      nca.section_offset i = some ((nca.fs_entries.getD i ⟨0, 0⟩).start_block * 0x200)) := by
  have hi' : i < nca.fs_entries.length := by omega
  have hget : nca.fs_entries[i]? = some (nca.fs_entries.getD i ⟨0, 0⟩) := by
    rw [List.getElem?_eq_getElem hi', List.getD_eq_getElem _ _ hi']
  unfold Nca.section_offset
  rw [hget]
  constructor
  · constructor
    · intro h
      by_contra hc
      simp only [if_neg hc] at h
      exact Option.noConfusion h
    · intro h
      simp only [if_pos h]
  · intro h
    simp only [if_neg h]

/-- C6 witness: a concrete descriptor whose entry 1 is zero-zero and
whose entry 0 starts at media block 3. -/
theorem section_offset_spec_witness :
    let nca : Nca :=
      { version := 3
        distribution_type := .download
        content_type := .program
        key_generation := 0
        key_area_enc_key_index := 0
        content_size := 0
        program_id := 0
        content_index := 0
        sdk_addon_version := 0
        rights_id := List.replicate 16 0
        fs_entries := [⟨3, 5⟩, ⟨0, 0⟩, ⟨0, 0⟩, ⟨0, 0⟩]
        fs_header_hashes := List.replicate 4 (List.replicate 32 0)
        encrypted_key_area := List.replicate 4 (List.replicate 16 0) }
    nca.fs_entries.length = 4 ∧ 0 < 4 ∧
    ((nca.section_offset 0 = none ↔
      ((nca.fs_entries.getD 0 ⟨0, 0⟩).start_block = 0 ∧
        (nca.fs_entries.getD 0 ⟨0, 0⟩).end_block = 0)) ∧
    (¬((nca.fs_entries.getD 0 ⟨0, 0⟩).start_block = 0 ∧
        (nca.fs_entries.getD 0 ⟨0, 0⟩).end_block = 0) →
      nca.section_offset 0 = some ((nca.fs_entries.getD 0 ⟨0, 0⟩).start_block * 0x200))) := by
  exact ⟨by decide, by decide, section_offset_spec _ 0 (by decide) (by decide)⟩

/-! ## C4: CTR counter arithmetic -/


theorem beVal_foldl (l : List Nat) :
    ∀ a : Nat, List.foldl (fun acc b => acc * 256 + b) a l = a * 256 ^ l.length + beVal l := by
  induction l with
  | nil => intro a; simp [beVal]
  | cons b t ih =>
    intro a
    have hcons : beVal (b :: t) = b * 256 ^ t.length + beVal t := by
      have h1 : beVal (b :: t) = List.foldl (fun acc x => acc * 256 + x) (0 * 256 + b) t := by
        simp only [beVal, List.foldl_cons]
      rw [h1, ih (0 * 256 + b)]
      ring
    simp only [List.foldl_cons, List.length_cons]
    rw [ih (a * 256 + b), hcons, pow_succ]
    ring

theorem beVal_cons (b : Nat) (t : List Nat) :
    beVal (b :: t) = b * 256 ^ t.length + beVal t := by
  have h1 : beVal (b :: t) = List.foldl (fun acc x => acc * 256 + x) (0 * 256 + b) t := by
    simp only [beVal, List.foldl_cons]
  rw [h1, beVal_foldl t (0 * 256 + b)]
  ring

theorem beVal_lt (l : List Nat) (h : Bytes l) : beVal l < 256 ^ l.length := by
  induction l with
  | nil => simp [beVal]
  | cons b t ih =>
    have hb : b < 256 := h b (by simp)
    have ht : Bytes t := fun x hx => h x (by simp [hx])
    have h1 := ih ht
    rw [beVal_cons, List.length_cons, pow_succ]
    calc b * 256 ^ t.length + beVal t
        < b * 256 ^ t.length + 256 ^ t.length := Nat.add_lt_add_left h1 _
      _ = (b + 1) * 256 ^ t.length := by ring
      _ ≤ 256 * 256 ^ t.length := Nat.mul_le_mul_right _ (by omega)
      _ = 256 ^ t.length * 256 := by ring

theorem incBE_spec : ∀ (l : List Nat), Bytes l →
    (incBE l).1.length = l.length ∧ Bytes (incBE l).1 ∧
    beVal (incBE l).1 = (beVal l + 1) % 256 ^ l.length ∧
    ((incBE l).2 = true ↔ beVal l + 1 = 256 ^ l.length) := by
  intro l
  induction l with
  | nil =>
    intro _
    refine ⟨rfl, ?_, ?_, ?_⟩
    · intro b hb
      cases hb
    · decide
    · decide
  | cons b t ih =>
    intro h
    have hb : b < 256 := h b (by simp)
    have ht : Bytes t := fun x hx => h x (by simp [hx])
    obtain ⟨ihlen, ihB, ihval, ihcarry⟩ := ih ht
    have hQpos : 0 < 256 ^ t.length := pow_pos (by omega) _
    by_cases hr : (incBE t).2 = true
    · have hQ : beVal t + 1 = 256 ^ t.length := ihcarry.mp hr
      have hstep : incBE (b :: t) =
          (((b + 1) % 256) :: (incBE t).1, decide ((b + 1) % 256 = 0)) := by
        simp [incBE, hr]
      rw [hstep]
      refine ⟨by simp [ihlen], ?_, ?_, ?_⟩
      · intro x hx
        rcases List.mem_cons.mp hx with h1 | h2
        · omega
        · exact ihB x h2
      · rw [beVal_cons, ihlen, ihval, hQ, Nat.mod_self, Nat.add_zero, beVal_cons,
          List.length_cons]
        have h2 : b * 256 ^ t.length + beVal t + 1 = 256 ^ t.length * (b + 1) := by
          rw [← hQ]; ring
        rw [h2, pow_succ, Nat.mul_mod_mul_left]
        ring
      · simp only [decide_eq_true_eq, beVal_cons, List.length_cons]
        constructor
        · intro hmod
          have hbe : b = 255 := by omega
          subst hbe
          rw [pow_succ]
          omega
        · intro heq
          rw [pow_succ] at heq
          have h2 : (b + 1) * 256 ^ t.length = 256 * 256 ^ t.length := by
            calc (b + 1) * 256 ^ t.length
                = b * 256 ^ t.length + (beVal t + 1) := by rw [hQ]; ring
              _ = b * 256 ^ t.length + beVal t + 1 := by ring
              _ = 256 ^ t.length * 256 := heq
              _ = 256 * 256 ^ t.length := by ring
          have h3 : b + 1 = 256 := Nat.eq_of_mul_eq_mul_right hQpos h2
          omega
    · have hcarryF : (incBE t).2 = false := by
        revert hr; cases (incBE t).2 <;> simp
      have hne : beVal t + 1 ≠ 256 ^ t.length := by
        intro hc
        rw [ihcarry.mpr hc] at hcarryF
        exact Bool.noConfusion hcarryF
      have hlt : beVal t + 1 < 256 ^ t.length :=
        lt_of_le_of_ne (beVal_lt t ht) hne
      have hstep : incBE (b :: t) = (b :: (incBE t).1, false) := by
        simp [incBE, hcarryF]
      rw [hstep]
      have htotal : b * 256 ^ t.length + beVal t + 1 < 256 ^ (t.length + 1) := by
        rw [pow_succ]
        calc b * 256 ^ t.length + beVal t + 1
            = b * 256 ^ t.length + (beVal t + 1) := by ring
          _ < b * 256 ^ t.length + 256 ^ t.length := Nat.add_lt_add_left hlt _
          _ = (b + 1) * 256 ^ t.length := by ring
          _ ≤ 256 * 256 ^ t.length := Nat.mul_le_mul_right _ (by omega)
          _ = 256 ^ t.length * 256 := by ring
      refine ⟨by simp [ihlen], ?_, ?_, ?_⟩
      · intro x hx
        rcases List.mem_cons.mp hx with h1 | h2
        · omega
        · exact ihB x h2
      · rw [beVal_cons, ihlen, ihval, Nat.mod_eq_of_lt hlt, List.length_cons, beVal_cons,
          Nat.mod_eq_of_lt htotal]
        ring
      · simp only [beVal_cons, List.length_cons]
        constructor
        · intro hfalse; exact Bool.noConfusion hfalse
        · intro heq; exact absurd heq (Nat.ne_of_lt htotal)

/-- C4 (amended): `decrypt_section_ctr` increments the counter as a
128-bit big-endian integer with wrapping arithmetic, and when applied to
32 zero bytes with any key and initial counter
`FF FF FF FF FF FF FF FF FF FF FF FF FF FF FF FE`, the 17th output byte
equals the first byte of `E_k` applied to the all-`FF` block (the
counter after one increment); the encryption of the all-zero block is
only reached at byte 33, past the 32-byte input. -/
theorem ctr_increment_and_17th_byte (key c : List Nat) (hc : c.length = 16) (hcB : Bytes c) :
    (ctr_increment c).length = 16 ∧
    beVal (ctr_increment c) = (beVal c + 1) % 2 ^ 128 ∧
    (decrypt_section_ctr (List.replicate 32 0) key
        (List.replicate 15 0xFF ++ [0xFE])).getD 16 0 =
      (aes128_encrypt_block (List.replicate 16 0xFF) (key_expand key)).getD 0 0 := by
  obtain ⟨h1, _, h3, _⟩ := incBE_spec c hcB
  refine ⟨by rw [ctr_increment, h1, hc], ?_, ?_⟩
  · rw [ctr_increment, h3, hc]
    norm_num
  · rw [show (decrypt_section_ctr (List.replicate 32 0) key
        (List.replicate 15 0xFF ++ [0xFE])).getD 16 0 =
      0 ^^^ (aes128_encrypt_block (List.replicate 16 0xFF) (key_expand key)).getD 0 0 from rfl]
    exact Nat.zero_xor _

/-- C4 (counterexample): with the all-zero key, the 17th keystream byte
is `E_k(FF…FF)[0]`, which differs from `E_k(00…00)[0]`: the code
generates a keystream block from the current counter and only then
increments it, so the all-zero counter block is not reached within 32
bytes. -/
theorem ctr_17th_byte_ne_zero_block :
    (decrypt_section_ctr (List.replicate 32 0) (List.replicate 16 0)
        (List.replicate 15 0xFF ++ [0xFE])).getD 16 0 ≠
      (aes128_encrypt_block (List.replicate 16 0) (key_expand (List.replicate 16 0))).getD 0 0 := by
  decide

/-- C4 witness: the amended claim instantiated at the all-zero key and
the all-`FF` counter (whose increment wraps to zero). -/
theorem ctr_increment_and_17th_byte_witness :
    (List.replicate 16 (0xFF : Nat)).length = 16 ∧ Bytes (List.replicate 16 0xFF) ∧
    ((ctr_increment (List.replicate 16 0xFF)).length = 16 ∧
      beVal (ctr_increment (List.replicate 16 0xFF)) =
        (beVal (List.replicate 16 0xFF) + 1) % 2 ^ 128 ∧
      (decrypt_section_ctr (List.replicate 32 0) (List.replicate 16 0)
          (List.replicate 15 0xFF ++ [0xFE])).getD 16 0 =
        (aes128_encrypt_block (List.replicate 16 0xFF)
          (key_expand (List.replicate 16 0))).getD 0 0) :=
  ⟨by decide, by decide,
    ctr_increment_and_17th_byte (List.replicate 16 0) (List.replicate 16 0xFF)
      (by decide) (by decide)⟩

/-! ## C2: AES-128 round-trip -/

theorem xorLeftComm (a b c : Nat) : a ^^^ (b ^^^ c) = b ^^^ (a ^^^ c) := by
  rw [← Nat.xor_assoc, Nat.xor_comm a b, Nat.xor_assoc]

theorem xor_lt_256 {x y : Nat} (hx : x < 256) (hy : y < 256) : x ^^^ y < 256 := by
  have h8 : (256 : Nat) = 2 ^ 8 := by norm_num
  rw [h8] at hx hy ⊢
  exact Nat.xor_lt_two_pow hx hy

theorem invSbox_sbox : ∀ b : Nat, b < 256 → invSboxAt (sboxAt b) = b := by decide

theorem sboxAt_lt (b : Nat) : sboxAt b < 256 := by
  by_cases h : b < 256
  · exact (by decide : ∀ x : Nat, x < 256 → sboxAt x < 256) b h
  · rw [sboxAt, List.getD_eq_default _ _ (by rw [(by decide : SBOX.length = 256)]; omega)]
    omega

theorem invSboxAt_lt (b : Nat) : invSboxAt b < 256 := by
  by_cases h : b < 256
  · exact (by decide : ∀ x : Nat, x < 256 → invSboxAt x < 256) b h
  · rw [invSboxAt, List.getD_eq_default _ _ (by rw [(by decide : INV_SBOX.length = 256)]; omega)]
    omega

theorem rcon_lt (i : Nat) : rconList.getD i 0 < 256 := by
  by_cases h : i < 10
  · exact (by decide : ∀ x : Nat, x < 10 → rconList.getD x 0 < 256) i h
  · rw [List.getD_eq_default _ _ (by rw [(by decide : rconList.length = 10)]; omega)]
    omega

theorem gmulGo_lt : ∀ (n p a b : Nat), p < 256 → a < 256 → gmulGo p a b n < 256 := by
  intro n
  induction n with
  | zero => intro p a b hp _; exact hp
  | succ m ih =>
    intro p a b hp ha
    simp only [gmulGo]
    apply ih
    · split
      · exact xor_lt_256 hp ha
      · exact hp
    · split
      · exact xor_lt_256 (by have := Nat.and_le_right (n := a <<< 1) (m := 0xFF); omega)
          (by omega)
      · have := Nat.and_le_right (n := a <<< 1) (m := 0xFF); omega

theorem gmul_lt {a : Nat} (ha : a < 256) (b : Nat) : gmul a b < 256 :=
  gmulGo_lt 8 0 a b (by omega) ha

theorem shiftRight_one_xor (x y : Nat) : (x ^^^ y) >>> 1 = x >>> 1 ^^^ y >>> 1 := by
  apply Nat.eq_of_testBit_eq
  intro i
  simp [Nat.testBit_shiftRight, Nat.testBit_xor]

theorem gmulGo_xor : ∀ (n a p q x y : Nat),
    gmulGo (p ^^^ q) a (x ^^^ y) n = gmulGo p a x n ^^^ gmulGo q a y n := by
  intro n
  induction n with
  | zero => intro a p q x y; rfl
  | succ m ih =>
    intro a p q x y
    simp only [gmulGo]
    rw [shiftRight_one_xor]
    rw [← ih]
    congr 1
    rw [Nat.and_xor_distrib_right]
    have hx : x &&& 1 = 0 ∨ x &&& 1 = 1 := by rw [Nat.and_one_is_mod]; omega
    have hy : y &&& 1 = 0 ∨ y &&& 1 = 1 := by rw [Nat.and_one_is_mod]; omega
    rcases hx with hx | hx <;> rcases hy with hy | hy <;>
      simp [hx, hy, Nat.xor_assoc, Nat.xor_comm, xorLeftComm, Nat.xor_self, Nat.xor_zero,
        Nat.zero_xor, Nat.xor_cancel_left]

theorem gmul_xor (a x y : Nat) : gmul a (x ^^^ y) = gmul a x ^^^ gmul a y := by
  have h := gmulGo_xor 8 a 0 0 x y
  simpa [gmul] using h

theorem xor_transpose16 (a0 a1 a2 a3 b0 b1 b2 b3 c0 c1 c2 c3 d0 d1 d2 d3 : Nat) :
    (a0 ^^^ a1 ^^^ a2 ^^^ a3) ^^^ (b0 ^^^ b1 ^^^ b2 ^^^ b3) ^^^
      (c0 ^^^ c1 ^^^ c2 ^^^ c3) ^^^ (d0 ^^^ d1 ^^^ d2 ^^^ d3) =
    (a0 ^^^ b0 ^^^ c0 ^^^ d0) ^^^ (a1 ^^^ b1 ^^^ c1 ^^^ d1) ^^^
      (a2 ^^^ b2 ^^^ c2 ^^^ d2) ^^^ (a3 ^^^ b3 ^^^ c3 ^^^ d3) := by
  simp only [Nat.xor_assoc]
  simp [Nat.xor_comm, xorLeftComm]

theorem invMix_collapse00 : ∀ v : Nat, v < 256 →
    gmul 0x0E (gmul 0x02 v) ^^^ gmul 0x0B v ^^^ gmul 0x0D v ^^^ gmul 0x09 (gmul 0x03 v) = v := by
  decide

theorem invMix_collapse01 : ∀ v : Nat, v < 256 →
    gmul 0x0E (gmul 0x03 v) ^^^ gmul 0x0B (gmul 0x02 v) ^^^ gmul 0x0D v ^^^ gmul 0x09 v = 0 := by
  decide

theorem invMix_collapse02 : ∀ v : Nat, v < 256 →
    gmul 0x0E v ^^^ gmul 0x0B (gmul 0x03 v) ^^^ gmul 0x0D (gmul 0x02 v) ^^^ gmul 0x09 v = 0 := by
  decide

theorem invMix_collapse03 : ∀ v : Nat, v < 256 →
    gmul 0x0E v ^^^ gmul 0x0B v ^^^ gmul 0x0D (gmul 0x03 v) ^^^ gmul 0x09 (gmul 0x02 v) = 0 := by
  decide

theorem invMix_collapse10 : ∀ v : Nat, v < 256 →
    gmul 0x09 (gmul 0x02 v) ^^^ gmul 0x0E v ^^^ gmul 0x0B v ^^^ gmul 0x0D (gmul 0x03 v) = 0 := by
  decide

theorem invMix_collapse11 : ∀ v : Nat, v < 256 →
    gmul 0x09 (gmul 0x03 v) ^^^ gmul 0x0E (gmul 0x02 v) ^^^ gmul 0x0B v ^^^ gmul 0x0D v = v := by
  decide

theorem invMix_collapse12 : ∀ v : Nat, v < 256 →
    gmul 0x09 v ^^^ gmul 0x0E (gmul 0x03 v) ^^^ gmul 0x0B (gmul 0x02 v) ^^^ gmul 0x0D v = 0 := by
  decide

theorem invMix_collapse13 : ∀ v : Nat, v < 256 →
    gmul 0x09 v ^^^ gmul 0x0E v ^^^ gmul 0x0B (gmul 0x03 v) ^^^ gmul 0x0D (gmul 0x02 v) = 0 := by
  decide

theorem invMix_collapse20 : ∀ v : Nat, v < 256 →
    gmul 0x0D (gmul 0x02 v) ^^^ gmul 0x09 v ^^^ gmul 0x0E v ^^^ gmul 0x0B (gmul 0x03 v) = 0 := by
  decide

theorem invMix_collapse21 : ∀ v : Nat, v < 256 →
    gmul 0x0D (gmul 0x03 v) ^^^ gmul 0x09 (gmul 0x02 v) ^^^ gmul 0x0E v ^^^ gmul 0x0B v = 0 := by
  decide

theorem invMix_collapse22 : ∀ v : Nat, v < 256 →
    gmul 0x0D v ^^^ gmul 0x09 (gmul 0x03 v) ^^^ gmul 0x0E (gmul 0x02 v) ^^^ gmul 0x0B v = v := by
  decide

theorem invMix_collapse23 : ∀ v : Nat, v < 256 →
    gmul 0x0D v ^^^ gmul 0x09 v ^^^ gmul 0x0E (gmul 0x03 v) ^^^ gmul 0x0B (gmul 0x02 v) = 0 := by
  decide

theorem invMix_collapse30 : ∀ v : Nat, v < 256 →
    gmul 0x0B (gmul 0x02 v) ^^^ gmul 0x0D v ^^^ gmul 0x09 v ^^^ gmul 0x0E (gmul 0x03 v) = 0 := by
  decide

theorem invMix_collapse31 : ∀ v : Nat, v < 256 →
    gmul 0x0B (gmul 0x03 v) ^^^ gmul 0x0D (gmul 0x02 v) ^^^ gmul 0x09 v ^^^ gmul 0x0E v = 0 := by
  decide

theorem invMix_collapse32 : ∀ v : Nat, v < 256 →
    gmul 0x0B v ^^^ gmul 0x0D (gmul 0x03 v) ^^^ gmul 0x09 (gmul 0x02 v) ^^^ gmul 0x0E v = 0 := by
  decide

theorem invMix_collapse33 : ∀ v : Nat, v < 256 →
    gmul 0x0B v ^^^ gmul 0x0D v ^^^ gmul 0x09 (gmul 0x03 v) ^^^ gmul 0x0E (gmul 0x02 v) = v := by
  decide

theorem invMixColumn_mixColumn (s0 s1 s2 s3 : Nat)
    (h0 : s0 < 256) (h1 : s1 < 256) (h2 : s2 < 256) (h3 : s3 < 256) :
    invMixColumn
      (gmul 0x02 s0 ^^^ gmul 0x03 s1 ^^^ s2 ^^^ s3)
      (s0 ^^^ gmul 0x02 s1 ^^^ gmul 0x03 s2 ^^^ s3)
      (s0 ^^^ s1 ^^^ gmul 0x02 s2 ^^^ gmul 0x03 s3)
      (gmul 0x03 s0 ^^^ s1 ^^^ s2 ^^^ gmul 0x02 s3) = [s0, s1, s2, s3] := by
  simp only [invMixColumn, List.cons.injEq, and_true]
  refine ⟨?_, ?_, ?_, ?_⟩
  · simp only [gmul_xor]
    rw [xor_transpose16, invMix_collapse00 s0 h0, invMix_collapse01 s1 h1,
      invMix_collapse02 s2 h2, invMix_collapse03 s3 h3]
    simp
  · simp only [gmul_xor]
    rw [xor_transpose16, invMix_collapse10 s0 h0, invMix_collapse11 s1 h1,
      invMix_collapse12 s2 h2, invMix_collapse13 s3 h3]
    simp
  · simp only [gmul_xor]
    rw [xor_transpose16, invMix_collapse20 s0 h0, invMix_collapse21 s1 h1,
      invMix_collapse22 s2 h2, invMix_collapse23 s3 h3]
    simp
  · simp only [gmul_xor]
    rw [xor_transpose16, invMix_collapse30 s0 h0, invMix_collapse31 s1 h1,
      invMix_collapse32 s2 h2, invMix_collapse33 s3 h3]
    simp

theorem exists16 (l : List Nat) (h : l.length = 16) :
    ∃ b0 b1 b2 b3 b4 b5 b6 b7 b8 b9 b10 b11 b12 b13 b14 b15 : Nat,
      l = [b0, b1, b2, b3, b4, b5, b6, b7, b8, b9, b10, b11, b12, b13, b14, b15] := by
  obtain ⟨b0, l, rfl⟩ := List.exists_of_length_succ l (show l.length = 15 + 1 by omega)
  simp only [List.length_cons] at h
  obtain ⟨b1, l, rfl⟩ := List.exists_of_length_succ l (show l.length = 14 + 1 by omega)
  simp only [List.length_cons] at h
  obtain ⟨b2, l, rfl⟩ := List.exists_of_length_succ l (show l.length = 13 + 1 by omega)
  simp only [List.length_cons] at h
  obtain ⟨b3, l, rfl⟩ := List.exists_of_length_succ l (show l.length = 12 + 1 by omega)
  simp only [List.length_cons] at h
  obtain ⟨b4, l, rfl⟩ := List.exists_of_length_succ l (show l.length = 11 + 1 by omega)
  simp only [List.length_cons] at h
  obtain ⟨b5, l, rfl⟩ := List.exists_of_length_succ l (show l.length = 10 + 1 by omega)
  simp only [List.length_cons] at h
  obtain ⟨b6, l, rfl⟩ := List.exists_of_length_succ l (show l.length = 9 + 1 by omega)
  simp only [List.length_cons] at h
  obtain ⟨b7, l, rfl⟩ := List.exists_of_length_succ l (show l.length = 8 + 1 by omega)
  simp only [List.length_cons] at h
  obtain ⟨b8, l, rfl⟩ := List.exists_of_length_succ l (show l.length = 7 + 1 by omega)
  simp only [List.length_cons] at h
  obtain ⟨b9, l, rfl⟩ := List.exists_of_length_succ l (show l.length = 6 + 1 by omega)
  simp only [List.length_cons] at h
  obtain ⟨b10, l, rfl⟩ := List.exists_of_length_succ l (show l.length = 5 + 1 by omega)
  simp only [List.length_cons] at h
  obtain ⟨b11, l, rfl⟩ := List.exists_of_length_succ l (show l.length = 4 + 1 by omega)
  simp only [List.length_cons] at h
  obtain ⟨b12, l, rfl⟩ := List.exists_of_length_succ l (show l.length = 3 + 1 by omega)
  simp only [List.length_cons] at h
  obtain ⟨b13, l, rfl⟩ := List.exists_of_length_succ l (show l.length = 2 + 1 by omega)
  simp only [List.length_cons] at h
  obtain ⟨b14, l, rfl⟩ := List.exists_of_length_succ l (show l.length = 1 + 1 by omega)
  simp only [List.length_cons] at h
  obtain ⟨b15, l, rfl⟩ := List.exists_of_length_succ l (show l.length = 0 + 1 by omega)
  simp only [List.length_cons] at h
  obtain rfl := List.length_eq_zero.mp (show l.length = 0 by omega)
  exact ⟨b0, b1, b2, b3, b4, b5, b6, b7, b8, b9, b10, b11, b12, b13, b14, b15, rfl⟩

theorem inv_shift_rows_shift_rows (l : List Nat) (h : l.length = 16) :
    inv_shift_rows (shift_rows l) = l := by
  obtain ⟨b0, b1, b2, b3, b4, b5, b6, b7, b8, b9, b10, b11, b12, b13, b14, b15, rfl⟩ := exists16 l h
  rfl

theorem sub_bytes_length (s : List Nat) : (sub_bytes s).length = s.length := by
  simp [sub_bytes]

theorem inv_sub_bytes_length (s : List Nat) : (inv_sub_bytes s).length = s.length := by
  simp [inv_sub_bytes]

theorem shift_rows_length (s : List Nat) (h : s.length = 16) : (shift_rows s).length = 16 := by
  obtain ⟨b0, b1, b2, b3, b4, b5, b6, b7, b8, b9, b10, b11, b12, b13, b14, b15, rfl⟩ := exists16 s h
  rfl

theorem inv_shift_rows_length (s : List Nat) (h : s.length = 16) :
    (inv_shift_rows s).length = 16 := by
  obtain ⟨b0, b1, b2, b3, b4, b5, b6, b7, b8, b9, b10, b11, b12, b13, b14, b15, rfl⟩ := exists16 s h
  rfl

theorem mix_columns_length (s : List Nat) (h : s.length = 16) : (mix_columns s).length = 16 := by
  obtain ⟨b0, b1, b2, b3, b4, b5, b6, b7, b8, b9, b10, b11, b12, b13, b14, b15, rfl⟩ := exists16 s h
  rfl

theorem inv_mix_columns_length (s : List Nat) (h : s.length = 16) :
    (inv_mix_columns s).length = 16 := by
  obtain ⟨b0, b1, b2, b3, b4, b5, b6, b7, b8, b9, b10, b11, b12, b13, b14, b15, rfl⟩ := exists16 s h
  rfl

theorem add_round_key_length (s rk : List Nat) :
    (add_round_key s rk).length = min s.length rk.length := by
  simp [add_round_key]

theorem Bytes_sub_bytes (s : List Nat) : Bytes (sub_bytes s) := by
  intro x hx
  simp only [sub_bytes, List.mem_map] at hx
  obtain ⟨b, _, rfl⟩ := hx
  exact sboxAt_lt b

theorem Bytes_inv_sub_bytes (s : List Nat) : Bytes (inv_sub_bytes s) := by
  intro x hx
  simp only [inv_sub_bytes, List.mem_map] at hx
  obtain ⟨b, _, rfl⟩ := hx
  exact invSboxAt_lt b

theorem Bytes_shift_rows (s : List Nat) (h16 : s.length = 16) (h : Bytes s) :
    Bytes (shift_rows s) := by
  obtain ⟨b0, b1, b2, b3, b4, b5, b6, b7, b8, b9, b10, b11, b12, b13, b14, b15, rfl⟩ := exists16 s h16
  intro x hx
  simp only [shift_rows, List.mem_cons, List.not_mem_nil, or_false] at hx
  rcases hx with rfl | rfl | rfl | rfl | rfl | rfl | rfl | rfl | rfl | rfl | rfl | rfl | rfl | rfl | rfl | rfl <;> exact h _ (by simp)

theorem Bytes_inv_shift_rows (s : List Nat) (h16 : s.length = 16) (h : Bytes s) :
    Bytes (inv_shift_rows s) := by
  obtain ⟨b0, b1, b2, b3, b4, b5, b6, b7, b8, b9, b10, b11, b12, b13, b14, b15, rfl⟩ := exists16 s h16
  intro x hx
  simp only [inv_shift_rows, List.mem_cons, List.not_mem_nil, or_false] at hx
  rcases hx with rfl | rfl | rfl | rfl | rfl | rfl | rfl | rfl | rfl | rfl | rfl | rfl | rfl | rfl | rfl | rfl <;> exact h _ (by simp)

theorem Bytes_mix_columns (s : List Nat) (h16 : s.length = 16) (h : Bytes s) :
    Bytes (mix_columns s) := by
  obtain ⟨b0, b1, b2, b3, b4, b5, b6, b7, b8, b9, b10, b11, b12, b13, b14, b15, rfl⟩ := exists16 s h16
  intro x hx
  simp only [mix_columns, mixColumn, List.cons_append, List.nil_append, List.mem_cons,
    List.not_mem_nil, or_false] at hx
  rcases hx with rfl | rfl | rfl | rfl | rfl | rfl | rfl | rfl | rfl | rfl | rfl | rfl | rfl | rfl | rfl | rfl <;> (repeat' apply xor_lt_256) <;>
    first
    | exact gmul_lt (by omega) _
    | exact h _ (by simp)

theorem Bytes_inv_mix_columns (s : List Nat) (h16 : s.length = 16) (h : Bytes s) :
    Bytes (inv_mix_columns s) := by
  obtain ⟨b0, b1, b2, b3, b4, b5, b6, b7, b8, b9, b10, b11, b12, b13, b14, b15, rfl⟩ := exists16 s h16
  intro x hx
  simp only [inv_mix_columns, invMixColumn, List.cons_append, List.nil_append, List.mem_cons,
    List.not_mem_nil, or_false] at hx
  rcases hx with rfl | rfl | rfl | rfl | rfl | rfl | rfl | rfl | rfl | rfl | rfl | rfl | rfl | rfl | rfl | rfl <;> (repeat' apply xor_lt_256) <;>
    first
    | exact gmul_lt (by omega) _
    | exact h _ (by simp)


theorem Bytes_add_round_key : ∀ (s rk : List Nat), Bytes s → Bytes rk →
    Bytes (add_round_key s rk) := by
  intro s
  induction s with
  | nil => intro rk _ _ x hx; simp [add_round_key] at hx
  | cons b t ih =>
    intro rk hs hk
    cases rk with
    | nil => intro x hx; simp [add_round_key] at hx
    | cons k kt =>
      intro x hx
      simp only [add_round_key, List.zipWith_cons_cons, List.mem_cons] at hx
      rcases hx with rfl | hx
      · exact xor_lt_256 (hs _ (by simp)) (hk _ (by simp))
      · exact ih kt (fun y hy => hs y (by simp [hy])) (fun y hy => hk y (by simp [hy])) x hx

theorem inv_sub_sub (s : List Nat) (h : Bytes s) : inv_sub_bytes (sub_bytes s) = s := by
  induction s with
  | nil => rfl
  | cons b t ih =>
    have ht := ih (fun y hy => h y (by simp [hy]))
    simp only [sub_bytes, inv_sub_bytes, List.map_cons] at ht ⊢
    rw [invSbox_sbox b (h b (by simp)), ht]

theorem ark_ark : ∀ (s rk : List Nat), s.length ≤ rk.length →
    add_round_key (add_round_key s rk) rk = s := by
  intro s
  induction s with
  | nil => intro rk _; rfl
  | cons b t ih =>
    intro rk h
    cases rk with
    | nil => simp at h
    | cons k kt =>
      simp only [add_round_key, List.zipWith_cons_cons]
      have ht := ih kt (by simp only [List.length_cons] at h; omega)
      simp only [add_round_key] at ht
      rw [Nat.xor_cancel_right, ht]


theorem inv_mix_mix (s : List Nat) (h16 : s.length = 16) (hB : Bytes s) :
    inv_mix_columns (mix_columns s) = s := by
  obtain ⟨b0, b1, b2, b3, b4, b5, b6, b7, b8, b9, b10, b11, b12, b13, b14, b15, rfl⟩ := exists16 s h16
  have h0 : b0 < 256 := hB b0 (by simp)
  have h1 : b1 < 256 := hB b1 (by simp)
  have h2 : b2 < 256 := hB b2 (by simp)
  have h3 : b3 < 256 := hB b3 (by simp)
  have h4 : b4 < 256 := hB b4 (by simp)
  have h5 : b5 < 256 := hB b5 (by simp)
  have h6 : b6 < 256 := hB b6 (by simp)
  have h7 : b7 < 256 := hB b7 (by simp)
  have h8 : b8 < 256 := hB b8 (by simp)
  have h9 : b9 < 256 := hB b9 (by simp)
  have h10 : b10 < 256 := hB b10 (by simp)
  have h11 : b11 < 256 := hB b11 (by simp)
  have h12 : b12 < 256 := hB b12 (by simp)
  have h13 : b13 < 256 := hB b13 (by simp)
  have h14 : b14 < 256 := hB b14 (by simp)
  have h15 : b15 < 256 := hB b15 (by simp)
  simp only [mix_columns, mixColumn, List.cons_append, List.nil_append, inv_mix_columns]
  rw [invMixColumn_mixColumn b0 b1 b2 b3 h0 h1 h2 h3,
    invMixColumn_mixColumn b4 b5 b6 b7 h4 h5 h6 h7,
    invMixColumn_mixColumn b8 b9 b10 b11 h8 h9 h10 h11,
    invMixColumn_mixColumn b12 b13 b14 b15 h12 h13 h14 h15]
  rfl

theorem nextWord_length (w : List Nat) (h : 16 ≤ w.length) : (nextWord w).length = 4 := by
  simp only [nextWord]
  split <;>
    simp only [List.length_zipWith, List.length_take, List.length_drop, List.length_cons,
      List.length_nil] <;>
    omega

theorem Bytes_nextWord (w : List Nat) (hB : Bytes w) : Bytes (nextWord w) := by
  show Bytes (add_round_key _ _)
  apply Bytes_add_round_key
  · exact fun x hx => hB x (List.drop_subset _ _ (List.take_subset _ _ hx))
  · split
    · intro x hx
      simp only [List.mem_cons, List.not_mem_nil, or_false] at hx
      rcases hx with rfl | rfl | rfl | rfl
      · exact xor_lt_256 (sboxAt_lt _) (rcon_lt _)
      · exact sboxAt_lt _
      · exact sboxAt_lt _
      · exact sboxAt_lt _
    · exact fun x hx => hB x (List.drop_subset _ _ (List.take_subset _ _ hx))

theorem keyExpandGo_length : ∀ (n : Nat) (w : List Nat), 16 ≤ w.length →
    (keyExpandGo n w).length = w.length + 4 * n := by
  intro n
  induction n with
  | zero => intro w _; simp [keyExpandGo]
  | succ m ih =>
    intro w h
    simp only [keyExpandGo]
    rw [ih (w ++ nextWord w) (by simp only [List.length_append]; omega)]
    simp only [List.length_append, nextWord_length w h]
    omega

theorem Bytes_keyExpandGo : ∀ (n : Nat) (w : List Nat), Bytes w → Bytes (keyExpandGo n w) := by
  intro n
  induction n with
  | zero => intro w h; exact h
  | succ m ih =>
    intro w h
    simp only [keyExpandGo]
    apply ih
    intro x hx
    rcases List.mem_append.mp hx with h1 | h2
    · exact h x h1
    · exact Bytes_nextWord w h x h2

theorem key_expand_length (key : List Nat) (h : 16 ≤ key.length) :
    (key_expand key).length = 176 := by
  unfold key_expand
  rw [keyExpandGo_length 40 _ (by simp only [List.length_take]; omega)]
  simp only [List.length_take]
  omega

theorem Bytes_key_expand (key : List Nat) (h : Bytes key) : Bytes (key_expand key) :=
  Bytes_keyExpandGo 40 _ (fun x hx => h x (List.take_subset _ _ hx))

theorem foldl_preserve {α β : Type} (P : α → Prop) (f : α → β → α) :
    ∀ (l : List β), (∀ a b, P a → b ∈ l → P (f a b)) → ∀ s, P s → P (List.foldl f s l) := by
  intro l
  induction l with
  | nil => intro _ s hs; exact hs
  | cons b t ih =>
    intro hP s hs
    simp only [List.foldl_cons]
    exact ih (fun a x ha hx => hP a x ha (List.mem_cons_of_mem _ hx)) (f s b)
      (hP s b hs (List.mem_cons_self _ _))

theorem foldl_rev_inv {α β : Type} (P : α → Prop) (φ : α → α) (f g : α → β → α) :
    ∀ (l : List β),
      (∀ a b, P a → b ∈ l → g (φ (f a b)) b = φ a) →
      (∀ a b, P a → b ∈ l → P (f a b)) →
      ∀ s, P s → List.foldl g (φ (List.foldl f s l)) l.reverse = φ s := by
  intro l
  induction l with
  | nil => intro _ _ s _; rfl
  | cons b t ih =>
    intro hfg hP s hs
    simp only [List.foldl_cons, List.reverse_cons]
    rw [List.foldl_append]
    rw [ih (fun a x ha hx => hfg a x ha (List.mem_cons_of_mem _ hx))
        (fun a x ha hx => hP a x ha (List.mem_cons_of_mem _ hx))
        (f s b) (hP s b hs (List.mem_cons_self _ _))]
    simp only [List.foldl_cons, List.foldl_nil]
    exact hfg s b hs (List.mem_cons_self _ _)

/-- C2: decrypting the encryption of any 16-byte block under any 16-byte
key with the AES-128 implementation returns the original block. -/
theorem aes128_decrypt_encrypt (block key : List Nat)
    (hbl : block.length = 16) (hbB : Bytes block)
    (hkl : key.length = 16) (hkB : Bytes key) :
    aes128_decrypt_block (aes128_encrypt_block block (key_expand key)) (key_expand key) =
      block := by
  have hrl : (key_expand key).length = 176 := key_expand_length key (by omega)
  have hrB : Bytes (key_expand key) := Bytes_key_expand key hkB
  set rks := key_expand key with hrks
  have hslice_len : ∀ r : Nat, r ≤ 10 → ((rks.drop (r * 16)).take 16).length = 16 := by
    intro r hr
    simp only [List.length_take, List.length_drop, hrl]
    omega
  have hslice_B : ∀ r : Nat, Bytes ((rks.drop (r * 16)).take 16) := by
    intro r x hx
    exact hrB x (List.drop_subset _ _ (List.take_subset _ _ hx))
  have hdrop160_len : (rks.drop 160).length = 16 := by
    simp only [List.length_drop, hrl]
  have hdrop160_B : Bytes (rks.drop 160) := fun x hx => hrB x (List.drop_subset _ _ hx)
  have htake16_len : (rks.take 16).length = 16 := by
    simp only [List.length_take, hrl]
    omega
  have htake16_B : Bytes (rks.take 16) := fun x hx => hrB x (List.take_subset _ _ hx)
  simp only [aes128_encrypt_block, aes128_decrypt_block]
  set P := fun s : List Nat => s.length = 16 ∧ Bytes s with hPdef
  set encR := fun (s : List Nat) (round : Nat) =>
    add_round_key (mix_columns (shift_rows (sub_bytes s))) ((rks.drop (round * 16)).take 16)
    with hencR
  set decR := fun (s : List Nat) (round : Nat) =>
    inv_mix_columns (add_round_key (inv_sub_bytes (inv_shift_rows s))
      ((rks.drop (round * 16)).take 16)) with hdecR
  have hmem10 : ∀ r : Nat, r ∈ List.range' 1 9 → r ≤ 10 := by
    intro r hr
    rcases List.mem_range'_1.mp hr with ⟨h1, h2⟩
    omega
  have hPres : ∀ (a : List Nat) (r : Nat), P a → r ∈ List.range' 1 9 → P (encR a r) := by
    intro a r ha hr
    obtain ⟨ha1, ha2⟩ := ha
    have hsb : (sub_bytes a).length = 16 := by rw [sub_bytes_length, ha1]
    have hsr : (shift_rows (sub_bytes a)).length = 16 := shift_rows_length _ hsb
    refine ⟨?_, ?_⟩
    · simp only [hencR]
      rw [add_round_key_length, mix_columns_length _ hsr, hslice_len r (hmem10 r hr)]
      omega
    · simp only [hencR]
      exact Bytes_add_round_key _ _
        (Bytes_mix_columns _ hsr (Bytes_shift_rows _ hsb (Bytes_sub_bytes _)))
        (hslice_B r)
  have hCancel : ∀ (a : List Nat) (r : Nat), P a → r ∈ List.range' 1 9 →
      decR (shift_rows (sub_bytes (encR a r))) r = shift_rows (sub_bytes a) := by
    intro a r ha hr
    obtain ⟨hX_len, hX_B⟩ := hPres a r ha hr
    obtain ⟨ha1, ha2⟩ := ha
    have hsb : (sub_bytes a).length = 16 := by rw [sub_bytes_length, ha1]
    have hsr : (shift_rows (sub_bytes a)).length = 16 := shift_rows_length _ hsb
    simp only [hdecR]
    rw [inv_shift_rows_shift_rows _ (by rw [sub_bytes_length, hX_len])]
    rw [inv_sub_sub _ hX_B]
    simp only [hencR]
    rw [ark_ark _ _ (by rw [mix_columns_length _ hsr, hslice_len r (hmem10 r hr)])]
    exact inv_mix_mix _ hsr (Bytes_shift_rows _ hsb (Bytes_sub_bytes _))
  have hs0_len : (add_round_key block (rks.take 16)).length = 16 := by
    rw [add_round_key_length, hbl, htake16_len]
    omega
  have hs0_B : Bytes (add_round_key block (rks.take 16)) :=
    Bytes_add_round_key _ _ hbB htake16_B
  have hs0P : P (add_round_key block (rks.take 16)) := ⟨hs0_len, hs0_B⟩
  have hs9P : P (List.foldl encR (add_round_key block (rks.take 16)) (List.range' 1 9)) :=
    foldl_preserve P encR (List.range' 1 9) hPres _ hs0P
  obtain ⟨hs9_len, hs9_B⟩ := hs9P
  have hsrsb9_len :
      (shift_rows (sub_bytes (List.foldl encR (add_round_key block (rks.take 16))
        (List.range' 1 9)))).length = 16 :=
    shift_rows_length _ (by rw [sub_bytes_length, hs9_len])
  rw [ark_ark _ (rks.drop 160) (by rw [hsrsb9_len, hdrop160_len])]
  have hfold := foldl_rev_inv P (fun s => shift_rows (sub_bytes s)) encR decR
    (List.range' 1 9) hCancel hPres (add_round_key block (rks.take 16)) hs0P
  simp only at hfold
  rw [hfold]
  rw [inv_shift_rows_shift_rows _ (by rw [sub_bytes_length, hs0_len])]
  rw [inv_sub_sub _ hs0_B]
  rw [ark_ark block (rks.take 16) (by rw [hbl, htake16_len])]

/-- C2 witness: the round trip at the FIPS-197 example block and key. -/
theorem aes128_decrypt_encrypt_witness :
    ([0x00, 0x11, 0x22, 0x33, 0x44, 0x55, 0x66, 0x77,
      0x88, 0x99, 0xAA, 0xBB, 0xCC, 0xDD, 0xEE, 0xFF] : List Nat).length = 16 ∧
    Bytes [0x00, 0x11, 0x22, 0x33, 0x44, 0x55, 0x66, 0x77,
      0x88, 0x99, 0xAA, 0xBB, 0xCC, 0xDD, 0xEE, 0xFF] ∧
    ([0x00, 0x01, 0x02, 0x03, 0x04, 0x05, 0x06, 0x07,
      0x08, 0x09, 0x0A, 0x0B, 0x0C, 0x0D, 0x0E, 0x0F] : List Nat).length = 16 ∧
    Bytes [0x00, 0x01, 0x02, 0x03, 0x04, 0x05, 0x06, 0x07,
      0x08, 0x09, 0x0A, 0x0B, 0x0C, 0x0D, 0x0E, 0x0F] ∧
    aes128_decrypt_block
      (aes128_encrypt_block
        [0x00, 0x11, 0x22, 0x33, 0x44, 0x55, 0x66, 0x77,
         0x88, 0x99, 0xAA, 0xBB, 0xCC, 0xDD, 0xEE, 0xFF]
        (key_expand [0x00, 0x01, 0x02, 0x03, 0x04, 0x05, 0x06, 0x07,
          0x08, 0x09, 0x0A, 0x0B, 0x0C, 0x0D, 0x0E, 0x0F]))
      (key_expand [0x00, 0x01, 0x02, 0x03, 0x04, 0x05, 0x06, 0x07,
        0x08, 0x09, 0x0A, 0x0B, 0x0C, 0x0D, 0x0E, 0x0F]) =
      [0x00, 0x11, 0x22, 0x33, 0x44, 0x55, 0x66, 0x77,
       0x88, 0x99, 0xAA, 0xBB, 0xCC, 0xDD, 0xEE, 0xFF] :=
  ⟨by decide, by decide, by decide, by decide,
    aes128_decrypt_encrypt _ _ (by decide) (by decide) (by decide) (by decide)⟩

/-! ## C1: NCA header decryption structure -/

theorem aes128_encrypt_block_length (block rks : List Nat) (hb : block.length = 16)
    (hr : rks.length = 176) : (aes128_encrypt_block block rks).length = 16 := by
  simp only [aes128_encrypt_block]
  have hs0 : (add_round_key block (rks.take 16)).length = 16 := by
    simp only [add_round_key_length, List.length_take, hr, hb]
    omega
  have h9 : (List.foldl
      (fun s round => add_round_key (mix_columns (shift_rows (sub_bytes s)))
        ((rks.drop (round * 16)).take 16))
      (add_round_key block (rks.take 16)) (List.range' 1 9)).length = 16 := by
    apply foldl_preserve (fun s : List Nat => s.length = 16)
    · intro a r ha hrm
      have hr10 : r ≤ 10 := by
        rcases List.mem_range'_1.mp hrm with ⟨h1, h2⟩
        omega
      have hsb : (sub_bytes a).length = 16 := by rw [sub_bytes_length, ha]
      rw [add_round_key_length, mix_columns_length _ (shift_rows_length _ hsb)]
      simp only [List.length_take, List.length_drop, hr]
      omega
    · exact hs0
  rw [add_round_key_length, shift_rows_length _ (by rw [sub_bytes_length, h9]),
    List.length_drop, hr]
  omega

theorem aes128_decrypt_block_length (block rks : List Nat) (hb : block.length = 16)
    (hr : rks.length = 176) : (aes128_decrypt_block block rks).length = 16 := by
  simp only [aes128_decrypt_block]
  have hs10 : (add_round_key block (rks.drop 160)).length = 16 := by
    simp only [add_round_key_length, List.length_drop, hr, hb]
    omega
  have h1 : (List.foldl
      (fun s round => inv_mix_columns (add_round_key (inv_sub_bytes (inv_shift_rows s))
        ((rks.drop (round * 16)).take 16)))
      (add_round_key block (rks.drop 160)) (List.range' 1 9).reverse).length = 16 := by
    apply foldl_preserve (fun s : List Nat => s.length = 16)
    · intro a r ha hrm
      have hr10 : r ≤ 10 := by
        rcases List.mem_range'_1.mp (List.mem_reverse.mp hrm) with ⟨h1, h2⟩
        omega
      exact inv_mix_columns_length _ (by
        rw [add_round_key_length, inv_sub_bytes_length, inv_shift_rows_length _ ha]
        simp only [List.length_take, List.length_drop, hr]
        omega)
    · exact hs10
  rw [add_round_key_length, inv_sub_bytes_length, inv_shift_rows_length _ h1,
    List.length_take, hr]
  omega

theorem make_xts_tweak_length (sector : Nat) : (make_xts_tweak sector).length = 16 := rfl

theorem xts_mult_tweak_length (t : List Nat) (h : t.length = 16) :
    (xts_mult_tweak t).length = 16 := by
  obtain ⟨b0, b1, b2, b3, b4, b5, b6, b7, b8, b9, b10, b11, b12, b13, b14, b15, rfl⟩ :=
    exists16 t h
  simp only [xts_mult_tweak]
  split <;> rfl

theorem xtsSectorGo_length (rk1 : List Nat) (hr : rk1.length = 176) :
    ∀ (n : Nat) (t rest : List Nat), t.length = 16 → 16 * n ≤ rest.length →
      (xtsSectorGo rk1 n t rest).length = 16 * n := by
  intro n
  induction n with
  | zero => intro t rest _ _; rfl
  | succ m ih =>
    intro t rest ht hlen
    simp only [xtsSectorGo]
    rw [List.length_append]
    have hblock : (rest.take 16).length = 16 := by
      simp only [List.length_take]
      omega
    have hxored : (List.zipWith (fun x y => x ^^^ y) (rest.take 16) t).length = 16 := by
      rw [List.length_zipWith, hblock, ht]
      omega
    have hdec : (List.zipWith (fun x y => x ^^^ y)
        (aes128_decrypt_block (List.zipWith (fun x y => x ^^^ y) (rest.take 16) t) rk1)
        t).length = 16 := by
      rw [List.length_zipWith, aes128_decrypt_block_length _ _ hxored hr, ht]
      omega
    rw [hdec, ih (xts_mult_tweak t) (rest.drop 16) (xts_mult_tweak_length t ht)
      (by simp only [List.length_drop]; omega)]
    omega

theorem xts_decrypt_sector_length (data k1 k2 : List Nat) (sector : Nat)
    (hk1 : k1.length = 16) (hk2 : k2.length = 16) (hd : 0x200 ≤ data.length) :
    (xts_decrypt_sector data k1 k2 sector).length = 0x200 := by
  unfold xts_decrypt_sector
  rw [xtsSectorGo_length (key_expand k1) (key_expand_length k1 (by omega)) 32 _ _
    (aes128_encrypt_block_length _ _ (make_xts_tweak_length sector)
      (key_expand_length k2 (by omega)))
    (by omega)]

/-- C1: for every input of at least 0xC00 bytes and every 32-byte header
key, `decrypt_header` splits the key into a cipher half (bytes 0-15) and
a tweak half (bytes 16-31), XTS-decrypts the two 0x200-byte sectors at
offsets 0x000 and 0x200 with sector indices 0 and 1, then decrypts each
of the four FS-header sectors at 0x400, 0x600, 0x800, 0xA00 with sector
index 0 when the decrypted 4 bytes at offset 0x200 equal `"NCA2"` and
with indices 2, 3, 4, 5 otherwise, returning the full 0xC00-byte
plaintext region. -/
theorem decrypt_header_spec (encrypted header_key : List Nat)
    (hlen : 0xC00 ≤ encrypted.length) (hkey : header_key.length = 32) :
    (decrypt_header encrypted header_key).length = 0xC00 ∧
    (decrypt_header encrypted header_key).take 0x200 =
      xts_decrypt_sector (encrypted.take 0x200) (header_key.take 16) (header_key.drop 16) 0 ∧
    ((decrypt_header encrypted header_key).drop 0x200).take 0x200 =
      xts_decrypt_sector ((encrypted.drop 0x200).take 0x200)
        (header_key.take 16) (header_key.drop 16) 1 ∧
    (∀ fs : Nat, fs < 4 →
      ((decrypt_header encrypted header_key).drop (0x400 + fs * 0x200)).take 0x200 =
        xts_decrypt_sector ((encrypted.drop (0x400 + fs * 0x200)).take 0x200)
          (header_key.take 16) (header_key.drop 16)
          (if ((decrypt_header encrypted header_key).drop 0x200).take 4 = nca2Magic
            then 0 else fs + 2)) := by
  have hk1 : (header_key.take 16).length = 16 := by
    simp only [List.length_take, hkey]
    omega
  have hk2 : (header_key.drop 16).length = 16 := by
    simp only [List.length_drop, hkey]
  set k1 := header_key.take 16 with hk1def
  set k2 := header_key.drop 16 with hk2def
  set s0v := xts_decrypt_sector (encrypted.take 0x200) k1 k2 0 with hs0v
  set s1v := xts_decrypt_sector ((encrypted.drop 0x200).take 0x200) k1 k2 1 with hs1v
  set f0 := xts_decrypt_sector ((encrypted.drop (0x400 + 0 * 0x200)).take 0x200) k1 k2
    (if s1v.take 4 = nca2Magic then 0 else 0 + 2) with hf0
  set f1 := xts_decrypt_sector ((encrypted.drop (0x400 + 1 * 0x200)).take 0x200) k1 k2
    (if s1v.take 4 = nca2Magic then 0 else 1 + 2) with hf1
  set f2 := xts_decrypt_sector ((encrypted.drop (0x400 + 2 * 0x200)).take 0x200) k1 k2
    (if s1v.take 4 = nca2Magic then 0 else 2 + 2) with hf2
  set f3 := xts_decrypt_sector ((encrypted.drop (0x400 + 3 * 0x200)).take 0x200) k1 k2
    (if s1v.take 4 = nca2Magic then 0 else 3 + 2) with hf3
  have hout : decrypt_header encrypted header_key = s0v ++ s1v ++ f0 ++ f1 ++ f2 ++ f3 := rfl
  have hl0 : s0v.length = 0x200 :=
    xts_decrypt_sector_length _ _ _ _ hk1 hk2 (by simp only [List.length_take]; omega)
  have hl1 : s1v.length = 0x200 :=
    xts_decrypt_sector_length _ _ _ _ hk1 hk2
      (by simp only [List.length_take, List.length_drop]; omega)
  have hlf0 : f0.length = 0x200 :=
    xts_decrypt_sector_length _ _ _ _ hk1 hk2
      (by simp only [List.length_take, List.length_drop]; omega)
  have hlf1 : f1.length = 0x200 :=
    xts_decrypt_sector_length _ _ _ _ hk1 hk2
      (by simp only [List.length_take, List.length_drop]; omega)
  have hlf2 : f2.length = 0x200 :=
    xts_decrypt_sector_length _ _ _ _ hk1 hk2
      (by simp only [List.length_take, List.length_drop]; omega)
  have hlf3 : f3.length = 0x200 :=
    xts_decrypt_sector_length _ _ _ _ hk1 hk2
      (by simp only [List.length_take, List.length_drop]; omega)
  have hassoc : s0v ++ s1v ++ f0 ++ f1 ++ f2 ++ f3 =
      s0v ++ (s1v ++ (f0 ++ (f1 ++ (f2 ++ f3)))) := by
    simp [List.append_assoc]
  have hd1 : (decrypt_header encrypted header_key).drop 0x200 =
      s1v ++ (f0 ++ (f1 ++ (f2 ++ f3))) := by
    rw [hout, hassoc]
    exact List.drop_left' hl0
  have hd2 : (decrypt_header encrypted header_key).drop 0x400 = f0 ++ (f1 ++ (f2 ++ f3)) := by
    rw [show (0x400 : Nat) = 0x200 + 0x200 from rfl, ← List.drop_drop, hd1]
    exact List.drop_left' hl1
  have hd3 : (decrypt_header encrypted header_key).drop 0x600 = f1 ++ (f2 ++ f3) := by
    rw [show (0x600 : Nat) = 0x400 + 0x200 from rfl, ← List.drop_drop, hd2]
    exact List.drop_left' hlf0
  have hd4 : (decrypt_header encrypted header_key).drop 0x800 = f2 ++ f3 := by
    rw [show (0x800 : Nat) = 0x600 + 0x200 from rfl, ← List.drop_drop, hd3]
    exact List.drop_left' hlf1
  have hd5 : (decrypt_header encrypted header_key).drop 0xA00 = f3 := by
    rw [show (0xA00 : Nat) = 0x800 + 0x200 from rfl, ← List.drop_drop, hd4]
    exact List.drop_left' hlf2
  have hmagic : ((decrypt_header encrypted header_key).drop 0x200).take 4 = s1v.take 4 := by
    rw [hd1]
    exact List.take_append_of_le_length (by omega)
  refine ⟨?_, ?_, ?_, ?_⟩
  · rw [hout]
    simp only [List.length_append, hl0, hl1, hlf0, hlf1, hlf2, hlf3]
  · rw [hout, hassoc]
    exact List.take_left' hl0
  · rw [hd1]
    exact List.take_left' hl1
  · intro fs hfs
    interval_cases fs
    · rw [hmagic]
      norm_num
      rw [hd2]
      exact List.take_left' hlf0
    · rw [hmagic]
      norm_num
      rw [hd3]
      exact List.take_left' hlf1
    · rw [hmagic]
      norm_num
      rw [hd4]
      exact List.take_left' hlf2
    · rw [hmagic]
      norm_num
      rw [hd5]
      exact List.take_all_of_le (by omega)

/-- C1 witness: the structure theorem instantiated at a concrete
0xC00-byte input and a concrete 32-byte key. -/
theorem decrypt_header_spec_witness :
    0xC00 ≤ (List.replicate 0xC00 (0 : Nat)).length ∧
    (List.replicate 32 (7 : Nat)).length = 32 ∧
    ((decrypt_header (List.replicate 0xC00 0) (List.replicate 32 7)).length = 0xC00 ∧
    (decrypt_header (List.replicate 0xC00 0) (List.replicate 32 7)).take 0x200 =
      xts_decrypt_sector ((List.replicate 0xC00 0).take 0x200)
        ((List.replicate 32 7).take 16) ((List.replicate 32 7).drop 16) 0 ∧
    ((decrypt_header (List.replicate 0xC00 0) (List.replicate 32 7)).drop 0x200).take 0x200 =
      xts_decrypt_sector (((List.replicate 0xC00 0).drop 0x200).take 0x200)
        ((List.replicate 32 7).take 16) ((List.replicate 32 7).drop 16) 1 ∧
    (∀ fs : Nat, fs < 4 →
      ((decrypt_header (List.replicate 0xC00 0) (List.replicate 32 7)).drop
          (0x400 + fs * 0x200)).take 0x200 =
        xts_decrypt_sector (((List.replicate 0xC00 0).drop (0x400 + fs * 0x200)).take 0x200)
          ((List.replicate 32 7).take 16) ((List.replicate 32 7).drop 16)
          (if ((decrypt_header (List.replicate 0xC00 0) (List.replicate 32 7)).drop
              0x200).take 4 = nca2Magic
            then 0 else fs + 2))) :=
  ⟨by rw [List.length_replicate], by rw [List.length_replicate],
    decrypt_header_spec (List.replicate 0xC00 0) (List.replicate 32 7)
      (by rw [List.length_replicate]) (by rw [List.length_replicate])⟩

/-! ## C10: `Nca::parse` never returns UnsupportedVersion -/

theorem noUV_u8 (s : List Nat) :
    ∀ v, utils.u8 s ≠ Except.error (Error.unsupportedVersion v) := by
  intro v
  cases h : ioReadExact s 1 with
  | ok p => simp [utils.u8, h]
  | error e => simp [utils.u8, h]

theorem noUV_le_u32 (s : List Nat) :
    ∀ v, utils.le_u32 s ≠ Except.error (Error.unsupportedVersion v) := by
  intro v
  cases h : ioReadExact s 4 with
  | ok p => simp [utils.le_u32, h]
  | error e => simp [utils.le_u32, h]

theorem noUV_le_u64 (s : List Nat) :
    ∀ v, utils.le_u64 s ≠ Except.error (Error.unsupportedVersion v) := by
  intro v
  cases h : ioReadExact s 8 with
  | ok p => simp [utils.le_u64, h]
  | error e => simp [utils.le_u64, h]

theorem noUV_bytesa (n : Nat) (s : List Nat) :
    ∀ v, utils.bytesa n s ≠ Except.error (Error.unsupportedVersion v) := by
  intro v
  cases h : ioReadExact s n with
  | ok p => simp [utils.bytesa, h]
  | error e => simp [utils.bytesa, h]

theorem errBind {α β : Type} (e : Error) (f : α → Except Error β) :
    (Except.error e >>= f : Except Error β) = Except.error e := rfl

theorem okBind {α β : Type} (a : α) (f : α → Except Error β) :
    (Except.ok a >>= f : Except Error β) = f a := rfl

theorem noUV_bind {α β : Type} (x : Except Error α) (f : α → Except Error β)
    (hx : ∀ v, x ≠ Except.error (Error.unsupportedVersion v))
    (hf : ∀ a v, f a ≠ Except.error (Error.unsupportedVersion v)) :
    ∀ v, x >>= f ≠ Except.error (Error.unsupportedVersion v) := by
  intro v
  cases x with
  | error e =>
    rw [errBind]
    intro h
    exact hx v (by rw [Except.error.inj h])
  | ok a => rw [okBind]; exact hf a v

theorem noUV_parseFsEntry (s : List Nat) :
    ∀ v, parseFsEntry s ≠ Except.error (Error.unsupportedVersion v) := by
  unfold parseFsEntry
  apply noUV_bind _ _ (noUV_le_u32 s)
  rintro ⟨a1, s1⟩
  apply noUV_bind _ _ (noUV_le_u32 s1)
  rintro ⟨a2, s2⟩
  apply noUV_bind _ _ (noUV_le_u64 s2)
  rintro ⟨a3, s3⟩
  simp

theorem parse_ok_bind {α : Type} (x : Except Error α) (f : α → Except Error Nca)
    (hx : ∀ v, x ≠ Except.error (Error.unsupportedVersion v))
    (hf : ∀ a, (∀ v, f a ≠ Except.error (Error.unsupportedVersion v)) ∧
      (∀ nca, f a = Except.ok nca → nca.version ≤ 3)) :
    (∀ v, x >>= f ≠ Except.error (Error.unsupportedVersion v)) ∧
      (∀ nca, x >>= f = Except.ok nca → nca.version ≤ 3) := by
  cases x with
  | error e =>
    rw [errBind]
    refine ⟨fun v h => ?_, fun nca h => Except.noConfusion h⟩
    exact hx v (by rw [Except.error.inj h])
  | ok a => rw [okBind]; exact hf a

theorem parse_ok_bind_q {α : Type} (Q : α → Prop) (x : Except Error α) (f : α → Except Error Nca)
    (hx : ∀ v, x ≠ Except.error (Error.unsupportedVersion v))
    (hval : ∀ a, x = Except.ok a → Q a)
    (hf : ∀ a, Q a → (∀ v, f a ≠ Except.error (Error.unsupportedVersion v)) ∧
      (∀ nca, f a = Except.ok nca → nca.version ≤ 3)) :
    (∀ v, x >>= f ≠ Except.error (Error.unsupportedVersion v)) ∧
      (∀ nca, x >>= f = Except.ok nca → nca.version ≤ 3) := by
  cases x with
  | error e =>
    rw [errBind]
    refine ⟨fun v h => ?_, fun nca h => Except.noConfusion h⟩
    exact hx v (by rw [Except.error.inj h])
  | ok a => rw [okBind]; exact hf a (hval a rfl)

/-- C10: `Nca::parse` never returns the `UnsupportedVersion` error: the
version is derived solely from the four accepted magic values (any other
magic fails with `BadMagic` first), so the parsed version is always at
most 3 and the `version > 3` branch is unreachable. -/
theorem nca_parse_never_unsupported (s : List Nat) :
    (∀ v, Nca.parse s ≠ Except.error (Error.unsupportedVersion v)) ∧
    (∀ nca, Nca.parse s = Except.ok nca → nca.version ≤ 3) := by
  unfold Nca.parse
  apply parse_ok_bind _ _ (noUV_bytesa 4 _)
  rintro ⟨magic4, s1⟩
  dsimp only
  repeat' split
  · apply parse_ok_bind_q (fun version => version ≤ 3)
    · intro v
      simp
    · intro a h
      have h3 := Except.ok.inj h
      omega
    · intro version hv
      apply parse_ok_bind _ _ (noUV_u8 _)
      rintro ⟨dist, s2⟩
      apply parse_ok_bind _ _ (noUV_u8 _)
      rintro ⟨ctype, s3⟩
      apply parse_ok_bind _ _ (noUV_u8 _)
      rintro ⟨kgo, s4⟩
      apply parse_ok_bind _ _ (noUV_u8 _)
      rintro ⟨kidx, s5⟩
      apply parse_ok_bind _ _ (noUV_le_u64 _)
      rintro ⟨csize, s6⟩
      apply parse_ok_bind _ _ (noUV_le_u64 _)
      rintro ⟨pid, s7⟩
      apply parse_ok_bind _ _ (noUV_le_u32 _)
      rintro ⟨cidx, s8⟩
      apply parse_ok_bind _ _ (noUV_le_u32 _)
      rintro ⟨sdk, s9⟩
      apply parse_ok_bind _ _ (noUV_u8 _)
      rintro ⟨kgn, s10⟩
      apply parse_ok_bind _ _ (noUV_u8 _)
      rintro ⟨sg, s11⟩
      apply parse_ok_bind _ _ (noUV_bytesa 0xE _)
      rintro ⟨rsv, s12⟩
      apply parse_ok_bind _ _ (noUV_bytesa 0x10 _)
      rintro ⟨rid, s13⟩
      apply parse_ok_bind _ _ (noUV_parseFsEntry _)
      rintro ⟨e0, s14⟩
      apply parse_ok_bind _ _ (noUV_parseFsEntry _)
      rintro ⟨e1, s15⟩
      apply parse_ok_bind _ _ (noUV_parseFsEntry _)
      rintro ⟨e2, s16⟩
      apply parse_ok_bind _ _ (noUV_parseFsEntry _)
      rintro ⟨e3, s17⟩
      apply parse_ok_bind _ _ (noUV_bytesa 0x20 _)
      rintro ⟨hh0, s18⟩
      apply parse_ok_bind _ _ (noUV_bytesa 0x20 _)
      rintro ⟨hh1, s19⟩
      apply parse_ok_bind _ _ (noUV_bytesa 0x20 _)
      rintro ⟨hh2, s20⟩
      apply parse_ok_bind _ _ (noUV_bytesa 0x20 _)
      rintro ⟨hh3, s21⟩
      apply parse_ok_bind _ _ (noUV_bytesa 0x10 _)
      rintro ⟨kk0, s22⟩
      apply parse_ok_bind _ _ (noUV_bytesa 0x10 _)
      rintro ⟨kk1, s23⟩
      apply parse_ok_bind _ _ (noUV_bytesa 0x10 _)
      rintro ⟨kk2, s24⟩
      apply parse_ok_bind _ _ (noUV_bytesa 0x10 _)
      rintro ⟨kk3, s25⟩
      rw [if_neg (by omega)]
      exact ⟨fun v h => Except.noConfusion h,
        fun nca h => by rw [← Except.ok.inj h]; exact hv⟩
  · apply parse_ok_bind_q (fun version => version ≤ 3)
    · intro v
      simp
    · intro a h
      have h3 := Except.ok.inj h
      omega
    · intro version hv
      apply parse_ok_bind _ _ (noUV_u8 _)
      rintro ⟨dist, s2⟩
      apply parse_ok_bind _ _ (noUV_u8 _)
      rintro ⟨ctype, s3⟩
      apply parse_ok_bind _ _ (noUV_u8 _)
      rintro ⟨kgo, s4⟩
      apply parse_ok_bind _ _ (noUV_u8 _)
      rintro ⟨kidx, s5⟩
      apply parse_ok_bind _ _ (noUV_le_u64 _)
      rintro ⟨csize, s6⟩
      apply parse_ok_bind _ _ (noUV_le_u64 _)
      rintro ⟨pid, s7⟩
      apply parse_ok_bind _ _ (noUV_le_u32 _)
      rintro ⟨cidx, s8⟩
      apply parse_ok_bind _ _ (noUV_le_u32 _)
      rintro ⟨sdk, s9⟩
      apply parse_ok_bind _ _ (noUV_u8 _)
      rintro ⟨kgn, s10⟩
      apply parse_ok_bind _ _ (noUV_u8 _)
      rintro ⟨sg, s11⟩
      apply parse_ok_bind _ _ (noUV_bytesa 0xE _)
      rintro ⟨rsv, s12⟩
      apply parse_ok_bind _ _ (noUV_bytesa 0x10 _)
      rintro ⟨rid, s13⟩
      apply parse_ok_bind _ _ (noUV_parseFsEntry _)
      rintro ⟨e0, s14⟩
      apply parse_ok_bind _ _ (noUV_parseFsEntry _)
      rintro ⟨e1, s15⟩
      apply parse_ok_bind _ _ (noUV_parseFsEntry _)
      rintro ⟨e2, s16⟩
      apply parse_ok_bind _ _ (noUV_parseFsEntry _)
      rintro ⟨e3, s17⟩
      apply parse_ok_bind _ _ (noUV_bytesa 0x20 _)
      rintro ⟨hh0, s18⟩
      apply parse_ok_bind _ _ (noUV_bytesa 0x20 _)
      rintro ⟨hh1, s19⟩
      apply parse_ok_bind _ _ (noUV_bytesa 0x20 _)
      rintro ⟨hh2, s20⟩
      apply parse_ok_bind _ _ (noUV_bytesa 0x20 _)
      rintro ⟨hh3, s21⟩
      apply parse_ok_bind _ _ (noUV_bytesa 0x10 _)
      rintro ⟨kk0, s22⟩
      apply parse_ok_bind _ _ (noUV_bytesa 0x10 _)
      rintro ⟨kk1, s23⟩
      apply parse_ok_bind _ _ (noUV_bytesa 0x10 _)
      rintro ⟨kk2, s24⟩
      apply parse_ok_bind _ _ (noUV_bytesa 0x10 _)
      rintro ⟨kk3, s25⟩
      rw [if_neg (by omega)]
      exact ⟨fun v h => Except.noConfusion h,
        fun nca h => by rw [← Except.ok.inj h]; exact hv⟩
  · apply parse_ok_bind_q (fun version => version ≤ 3)
    · intro v
      simp
    · intro a h
      have h3 := Except.ok.inj h
      omega
    · intro version hv
      apply parse_ok_bind _ _ (noUV_u8 _)
      rintro ⟨dist, s2⟩
      apply parse_ok_bind _ _ (noUV_u8 _)
      rintro ⟨ctype, s3⟩
      apply parse_ok_bind _ _ (noUV_u8 _)
      rintro ⟨kgo, s4⟩
      apply parse_ok_bind _ _ (noUV_u8 _)
      rintro ⟨kidx, s5⟩
      apply parse_ok_bind _ _ (noUV_le_u64 _)
      rintro ⟨csize, s6⟩
      apply parse_ok_bind _ _ (noUV_le_u64 _)
      rintro ⟨pid, s7⟩
      apply parse_ok_bind _ _ (noUV_le_u32 _)
      rintro ⟨cidx, s8⟩
      apply parse_ok_bind _ _ (noUV_le_u32 _)
      rintro ⟨sdk, s9⟩
      apply parse_ok_bind _ _ (noUV_u8 _)
      rintro ⟨kgn, s10⟩
      apply parse_ok_bind _ _ (noUV_u8 _)
      rintro ⟨sg, s11⟩
      apply parse_ok_bind _ _ (noUV_bytesa 0xE _)
      rintro ⟨rsv, s12⟩
      apply parse_ok_bind _ _ (noUV_bytesa 0x10 _)
      rintro ⟨rid, s13⟩
      apply parse_ok_bind _ _ (noUV_parseFsEntry _)
      rintro ⟨e0, s14⟩
      apply parse_ok_bind _ _ (noUV_parseFsEntry _)
      rintro ⟨e1, s15⟩
      apply parse_ok_bind _ _ (noUV_parseFsEntry _)
      rintro ⟨e2, s16⟩
      apply parse_ok_bind _ _ (noUV_parseFsEntry _)
      rintro ⟨e3, s17⟩
      apply parse_ok_bind _ _ (noUV_bytesa 0x20 _)
      rintro ⟨hh0, s18⟩
      apply parse_ok_bind _ _ (noUV_bytesa 0x20 _)
      rintro ⟨hh1, s19⟩
      apply parse_ok_bind _ _ (noUV_bytesa 0x20 _)
      rintro ⟨hh2, s20⟩
      apply parse_ok_bind _ _ (noUV_bytesa 0x20 _)
      rintro ⟨hh3, s21⟩
      apply parse_ok_bind _ _ (noUV_bytesa 0x10 _)
      rintro ⟨kk0, s22⟩
      apply parse_ok_bind _ _ (noUV_bytesa 0x10 _)
      rintro ⟨kk1, s23⟩
      apply parse_ok_bind _ _ (noUV_bytesa 0x10 _)
      rintro ⟨kk2, s24⟩
      apply parse_ok_bind _ _ (noUV_bytesa 0x10 _)
      rintro ⟨kk3, s25⟩
      rw [if_neg (by omega)]
      exact ⟨fun v h => Except.noConfusion h,
        fun nca h => by rw [← Except.ok.inj h]; exact hv⟩
  · apply parse_ok_bind_q (fun version => version ≤ 3)
    · intro v
      simp
    · intro a h
      have h3 := Except.ok.inj h
      omega
    · intro version hv
      apply parse_ok_bind _ _ (noUV_u8 _)
      rintro ⟨dist, s2⟩
      apply parse_ok_bind _ _ (noUV_u8 _)
      rintro ⟨ctype, s3⟩
      apply parse_ok_bind _ _ (noUV_u8 _)
      rintro ⟨kgo, s4⟩
      apply parse_ok_bind _ _ (noUV_u8 _)
      rintro ⟨kidx, s5⟩
      apply parse_ok_bind _ _ (noUV_le_u64 _)
      rintro ⟨csize, s6⟩
      apply parse_ok_bind _ _ (noUV_le_u64 _)
      rintro ⟨pid, s7⟩
      apply parse_ok_bind _ _ (noUV_le_u32 _)
      rintro ⟨cidx, s8⟩
      apply parse_ok_bind _ _ (noUV_le_u32 _)
      rintro ⟨sdk, s9⟩
      apply parse_ok_bind _ _ (noUV_u8 _)
      rintro ⟨kgn, s10⟩
      apply parse_ok_bind _ _ (noUV_u8 _)
      rintro ⟨sg, s11⟩
      apply parse_ok_bind _ _ (noUV_bytesa 0xE _)
      rintro ⟨rsv, s12⟩
      apply parse_ok_bind _ _ (noUV_bytesa 0x10 _)
      rintro ⟨rid, s13⟩
      apply parse_ok_bind _ _ (noUV_parseFsEntry _)
      rintro ⟨e0, s14⟩
      apply parse_ok_bind _ _ (noUV_parseFsEntry _)
      rintro ⟨e1, s15⟩
      apply parse_ok_bind _ _ (noUV_parseFsEntry _)
      rintro ⟨e2, s16⟩
      apply parse_ok_bind _ _ (noUV_parseFsEntry _)
      rintro ⟨e3, s17⟩
      apply parse_ok_bind _ _ (noUV_bytesa 0x20 _)
      rintro ⟨hh0, s18⟩
      apply parse_ok_bind _ _ (noUV_bytesa 0x20 _)
      rintro ⟨hh1, s19⟩
      apply parse_ok_bind _ _ (noUV_bytesa 0x20 _)
      rintro ⟨hh2, s20⟩
      apply parse_ok_bind _ _ (noUV_bytesa 0x20 _)
      rintro ⟨hh3, s21⟩
      apply parse_ok_bind _ _ (noUV_bytesa 0x10 _)
      rintro ⟨kk0, s22⟩
      apply parse_ok_bind _ _ (noUV_bytesa 0x10 _)
      rintro ⟨kk1, s23⟩
      apply parse_ok_bind _ _ (noUV_bytesa 0x10 _)
      rintro ⟨kk2, s24⟩
      apply parse_ok_bind _ _ (noUV_bytesa 0x10 _)
      rintro ⟨kk3, s25⟩
      rw [if_neg (by omega)]
      exact ⟨fun v h => Except.noConfusion h,
        fun nca h => by rw [← Except.ok.inj h]; exact hv⟩
  · refine ⟨fun v h => ?_, fun nca h => ?_⟩
    · rw [errBind] at h
      simp at h
    · rw [errBind] at h
      exact Except.noConfusion h

/-- C10 witness: a concrete decrypted NCA byte stream (two zeroed
signatures, magic `"NCA3"`, zeroed fields) parses successfully and the
parsed version is at most 3. -/
theorem nca_parse_never_unsupported_witness :
    Nca.parse (List.replicate 0x200 0 ++ [0x4E, 0x43, 0x41, 0x33] ++ List.replicate 316 0) =
      Except.ok
        { version := 3
          distribution_type := .download
          content_type := .program
          key_generation := 0
          key_area_enc_key_index := 0
          content_size := 0
          program_id := 0
          content_index := 0
          sdk_addon_version := 0
          rights_id := List.replicate 16 0
          fs_entries := [⟨0, 0⟩, ⟨0, 0⟩, ⟨0, 0⟩, ⟨0, 0⟩]
          fs_header_hashes := List.replicate 4 (List.replicate 32 0)
          encrypted_key_area := List.replicate 4 (List.replicate 16 0) } ∧
    ({ version := 3
       distribution_type := .download
       content_type := .program
       key_generation := 0
       key_area_enc_key_index := 0
       content_size := 0
       program_id := 0
       content_index := 0
       sdk_addon_version := 0
       rights_id := List.replicate 16 0
       fs_entries := [⟨0, 0⟩, ⟨0, 0⟩, ⟨0, 0⟩, ⟨0, 0⟩]
       fs_header_hashes := List.replicate 4 (List.replicate 32 0)
       encrypted_key_area := List.replicate 4 (List.replicate 16 0) } : Nca).version ≤ 3 := by
  refine ⟨by rfl, (nca_parse_never_unsupported
    (List.replicate 0x200 0 ++ [0x4E, 0x43, 0x41, 0x33] ++ List.replicate 316 0)).2 _ (by rfl)⟩
